import Mathlib

/-!
Verification of the chess rules engine of this repository (`src/lib/chess`,
provided as `src/unnamed/part_002`) against its natural-language
specification.

The engine is embedded shallowly:

* machine numbers (JS `number` used as board indices and deltas) become
  `Int`, with validity checks exactly where the source checks them;
* the board `Square[][]` becomes `List (List (Option Piece))`; JS `null`
  becomes `none`; the optional `hasMoved` flag becomes a `Bool` that
  defaults to `false` (absent and `false` are indistinguishable to the
  source, which only ever tests truthiness);
* the source's mutual recursion `getRawMoves` ⇄ `isSquareAttacked`
  (through the castling branch) is *not* structurally terminating — the
  functions take an explicit `fuel : Nat` and return `none` when the
  recursion does not bottom out within `fuel` nested `getRawMoves` calls,
  mirroring a JS stack overflow.  `some r` means the source returns `r`.
* JS strings (the time-control argument) become `List Char`.
-/

namespace Chess

inductive PieceType where
  | king | queen | rook | bishop | knight | pawn
deriving DecidableEq, Repr

inductive PieceColor where
  | white | black
deriving DecidableEq, Repr

structure Piece where
  type : PieceType
  color : PieceColor
  hasMoved : Bool := false
deriving DecidableEq, Repr

/-- `Square = Piece | null`. -/
abbrev Square := Option Piece

/-- `Board = Square[][]`, 8 rows of 8 squares. -/
abbrev Board := List (List Square)

structure Position where
  row : Int
  col : Int
deriving DecidableEq, Repr

inductive CastleSide where
  | kingside | queenside
deriving DecidableEq, Repr

/-- The `Move` interface; `from` is a Lean keyword, so the field is `from'` (and `to` is `to'`);
the `notation` field is `notationStr`. -/
structure Move where
  from' : Position
  to' : Position
  piece : Piece
  captured : Option Piece := none
  promotion : Option PieceType := none
  castling : Option CastleSide := none
  enPassant : Bool := false
  notationStr : Option String := none
deriving DecidableEq, Repr

/-- The `status` string union of `GameState`. -/
inductive Status where
  | waiting | playing | checkmate | stalemate | draw | resigned
deriving DecidableEq, Repr

structure GameState where
  board : Board
  turn : PieceColor
  status : Status
  moves : List Move
  whiteTime : Nat
  blackTime : Nat
  lastMove : Option Move := none
  enPassantTarget : Option Position := none
  winner : Option PieceColor := none
  drawOffer : Option PieceColor := none
deriving DecidableEq, Repr

/-- The back-rank piece order of `createInitialBoard`. -/
def pieceOrder : List PieceType :=
  [.rook, .knight, .bishop, .queen, .king, .bishop, .knight, .rook]

def pawnRank (c : PieceColor) : List Square :=
  List.replicate 8 (some { type := .pawn, color := c })

def backRank (c : PieceColor) : List Square :=
  pieceOrder.map (fun t => some { type := t, color := c })

def emptyRank : List Square := List.replicate 8 (none : Square)

/-- `createInitialBoard`: pawns on rows 1 (black) and 6 (white), `pieceOrder`
on rows 0 (black) and 7 (white), all other squares `null`. -/
def createInitialBoard : Board :=
  [backRank .black, pawnRank .black, emptyRank, emptyRank,
   emptyRank, emptyRank, pawnRank .white, backRank .white]

/-- A decimal digit as a character (used only to *state* which time-control
strings are well formed; it is not part of the source). -/
def digitChar : Nat → Char
  | 0 => '0' | 1 => '1' | 2 => '2' | 3 => '3' | 4 => '4'
  | 5 => '5' | 6 => '6' | 7 => '7' | 8 => '8' | 9 => '9'
  | _ => '0'

/-- The decimal digits of a natural number, most significant first (spec-side
description of "`<minutes>`" text; not part of the source). -/
def natChars (n : Nat) : List Char :=
  if _h : n < 10 then [digitChar n]
  else natChars (n / 10) ++ [digitChar (n % 10)]
decreasing_by exact Nat.div_lt_self (by omega) (by omega)

/-- `"…".split('+')` on the character-list model of JS strings. -/
def splitOnChar (sep : Char) : List Char → List (List Char)
  | [] => [[]]
  | c :: rest =>
    if c = sep then [] :: splitOnChar sep rest
    else
      match splitOnChar sep rest with
      | [] => [[c]]
      | seg :: segs => (c :: seg) :: segs

def digitsVal (cs : List Char) : Nat :=
  cs.foldl (fun a c => 10 * a + (c.toNat - 48)) 0

/-- The exactly-modeled fragment of JS `Number(s)`: `some 0` for the empty
string (`Number('')` is `0`) and the value of a string of decimal digits.
`none` marks an input outside this fragment — the source's `Number` also
accepts signs, decimal points, exponents, hex prefixes and surrounding
whitespace, none of which the natural-number embedding can represent — and
the functions below are then not modeled rather than given a made-up value. -/
def jsNumberNat (cs : List Char) : Option Nat :=
  if cs = [] then some 0
  else if cs.all Char.isDigit then some (digitsVal cs) else none

/-- `createInitialGameState(timeControl)`: `const [minutes] =
timeControl.split('+').map(Number); const timeInSeconds = (minutes || 10) *
60;` and the waiting state.  `minutes || 10` replaces a falsy `minutes`
(here: the parsed value `0`) by `10`.  The result is `none` — not modeled —
when the minutes segment falls outside the digit fragment of `Number`;
every canonical `"<minutes>+<increment>"` input of the spec is inside. -/
def createInitialGameState (timeControl : List Char) : Option GameState :=
  match jsNumberNat ((splitOnChar '+' timeControl).headD []) with
  | none => none
  | some minutes =>
    let timeInSeconds := (if minutes = 0 then 10 else minutes) * 60
    some
      { board := createInitialBoard
        turn := .white
        status := .waiting
        moves := []
        whiteTime := timeInSeconds
        blackTime := timeInSeconds }

/-- `cloneBoard`: `board.map(row => row.map(piece => piece ? { ...piece } :
null))`. -/
def cloneBoard (board : Board) : Board :=
  board.map (fun row => row.map (fun piece =>
    match piece with
    | some p => some { type := p.type, color := p.color, hasMoved := p.hasMoved }
    | none => none))

/-- `isValidPosition`. -/
def isValidPosition (pos : Position) : Bool :=
  decide (0 ≤ pos.row) && decide (pos.row < 8) &&
  decide (0 ≤ pos.col) && decide (pos.col < 8)

/-- Bare `board[row][col]` (always used in range by the source). -/
def rawGet (board : Board) (r c : Int) : Square :=
  ((board.getD r.toNat []).getD c.toNat none)

/-- `board[row][col] = v` (always used in range by the source). -/
def rawSet (board : Board) (r c : Int) (v : Square) : Board :=
  board.set r.toNat ((board.getD r.toNat []).set c.toNat v)

/-- `getPiece`. -/
def getPiece (board : Board) (pos : Position) : Square :=
  if isValidPosition pos then rawGet board pos.row pos.col else none

/-- `addSlidingMoves`: the `while` loop, as recursion on a step budget.
From any square a direction `(dr, dc) ≠ (0, 0)` leaves the 8×8 board within
8 steps, so a budget of 8 computes the loop exactly. -/
def addSlidingMoves (board : Board) (color : PieceColor) (dr dc : Int) :
    Int → Int → Nat → List Position
  | _, _, 0 => []
  | r, c, steps + 1 =>
    if isValidPosition ⟨r, c⟩ then
      match getPiece board ⟨r, c⟩ with
      | none => ⟨r, c⟩ :: addSlidingMoves board color dr dc (r + dr) (c + dc) steps
      | some target => if target.color ≠ color then [⟨r, c⟩] else []
    else []

/-- The `for … of offsets` pattern shared by the knight branch and the
king's adjacent-square double loop. -/
def offsetMoves (board : Board) (color : PieceColor) (row col : Int)
    (offs : List (Int × Int)) : List Position :=
  offs.foldr (fun d acc =>
    let newPos : Position := ⟨row + d.1, col + d.2⟩
    if isValidPosition newPos then
      match getPiece board newPos with
      | none => newPos :: acc
      | some target => if target.color ≠ color then newPos :: acc else acc
    else acc) []

def knightOffsets : List (Int × Int) :=
  [(-2, -1), (-2, 1), (-1, -2), (-1, 2), (1, -2), (1, 2), (2, -1), (2, 1)]

/-- The king's `dr ∈ -1..1, dc ∈ -1..1, (0,0) skipped` double loop, in its
row-major order. -/
def kingOffsets : List (Int × Int) :=
  [(-1, -1), (-1, 0), (-1, 1), (0, -1), (0, 1), (1, -1), (1, 0), (1, 1)]

/-- The 64 squares in the row-major order of the source's double loops. -/
def allSquares : List Position :=
  (List.range 8).flatMap (fun r => (List.range 8).map (fun c => ⟨(r : Int), (c : Int)⟩))

/-- The scan of `isSquareAttacked` over the 64 squares, parameterized by the
raw-move generator so that the source's `getRawMoves` ⇄ `isSquareAttacked`
mutual recursion is tied through the fuel of `getRawMovesF`.  `none` = a
nested call ran out of fuel. -/
def attackScan (gen : Position → Option (List Position)) (board : Board)
    (pos : Position) (attackerColor : PieceColor) :
    List Position → Option Bool
  | [] => some false
  | sq :: rest =>
    match rawGet board sq.row sq.col with
    | some piece =>
      if piece.color = attackerColor then
        match gen sq with
        | none => none
        | some moves =>
          if moves.any (fun m => decide (m.row = pos.row ∧ m.col = pos.col)) then
            some true
          else attackScan gen board pos attackerColor rest
      else attackScan gen board pos attackerColor rest
    | none => attackScan gen board pos attackerColor rest

/-- `isSquareAttacked`, with the generator for attacker raw moves
abstracted (the source calls `getRawMoves(board, {row, col})`, with no
en-passant target but with the castling branch intact). -/
def isSquareAttackedWith (gen : Position → Option (List Position))
    (board : Board) (pos : Position) (defenderColor : PieceColor) : Option Bool :=
  let attackerColor :=
    if defenderColor = PieceColor.white then PieceColor.black else PieceColor.white
  attackScan gen board pos attackerColor allSquares

/-- The chain `!isSquareAttacked(…) && !isSquareAttacked(…) && …` of a
castling branch, in JS short-circuit order, ending in the pushed
destination. -/
def castleChecks (gen : Position → Option (List Position)) (board : Board)
    (row : Int) (color : PieceColor) (destCol : Int) :
    List Int → Option (List Position)
  | [] => some [⟨row, destCol⟩]
  | c :: rest => do
    let a ← isSquareAttackedWith gen board ⟨row, c⟩ color
    if a then some [] else castleChecks gen board row color destCol rest

/-- One castling branch of the king's `getRawMoves` case: the rook test
(type and `hasMoved` only — the source never checks the rook's color), the
between-squares emptiness test, then the attack tests. The column literals
are (7, [5,6], [4,5,6], 6) kingside and (0, [1,2,3], [4,3,2], 2) queenside,
exactly as in the source. -/
def castleSide (gen : Position → Option (List Position)) (board : Board)
    (row : Int) (color : PieceColor) (rookCol : Int) (betweenCols : List Int)
    (checkCols : List Int) (destCol : Int) : Option (List Position) :=
  match getPiece board ⟨row, rookCol⟩ with
  | some rk =>
    if rk.type = PieceType.rook ∧ rk.hasMoved = false then
      if betweenCols.all (fun c => (getPiece board ⟨row, c⟩).isNone) then
        castleChecks gen board row color destCol checkCols
      else some []
    else some []
  | none => some []

/-- `getRawMoves`, with `fuel` bounding the nesting depth of the mutual
recursion with `isSquareAttacked` through the castling branch. -/
def getRawMovesF : Nat → Board → Position → Option Position → Option (List Position)
  | 0, _, _, _ => none
  | fuel + 1, board, pos, enPassantTarget =>
    match getPiece board pos with
    | none => some []
    | some piece =>
      let row := pos.row
      let col := pos.col
      let direction : Int := if piece.color = PieceColor.white then -1 else 1
      match piece.type with
      | .pawn =>
        let forward : Position := ⟨row + direction, col⟩
        let fwd : List Position :=
          if isValidPosition forward && (getPiece board forward).isNone then
            forward ::
              (if row = (if piece.color = PieceColor.white then (6 : Int) else 1) then
                let doubleForward : Position := ⟨row + 2 * direction, col⟩
                if (getPiece board doubleForward).isNone then [doubleForward] else []
              else [])
          else []
        let caps : List Position :=
          ([-1, 1] : List Int).foldr (fun dc acc =>
            let capturePos : Position := ⟨row + direction, col + dc⟩
            if isValidPosition capturePos then
              (match getPiece board capturePos with
                | some target => if target.color ≠ piece.color then [capturePos] else []
                | none => []) ++
              (match enPassantTarget with
                | some ep =>
                  if capturePos.row = ep.row ∧ capturePos.col = ep.col then [capturePos]
                  else []
                | none => []) ++ acc
            else acc) []
        some (fwd ++ caps)
      | .knight => some (offsetMoves board piece.color row col knightOffsets)
      | .bishop =>
        some ((([(-1, -1), (-1, 1), (1, -1), (1, 1)] : List (Int × Int))).foldr
          (fun d acc =>
            addSlidingMoves board piece.color d.1 d.2 (row + d.1) (col + d.2) 8 ++ acc) [])
      | .rook =>
        some ((([(-1, 0), (1, 0), (0, -1), (0, 1)] : List (Int × Int))).foldr
          (fun d acc =>
            addSlidingMoves board piece.color d.1 d.2 (row + d.1) (col + d.2) 8 ++ acc) [])
      | .queen =>
        some ((([(-1, -1), (-1, 1), (1, -1), (1, 1),
                 (-1, 0), (1, 0), (0, -1), (0, 1)] : List (Int × Int))).foldr
          (fun d acc =>
            addSlidingMoves board piece.color d.1 d.2 (row + d.1) (col + d.2) 8 ++ acc) [])
      | .king =>
        let adj := offsetMoves board piece.color row col kingOffsets
        if piece.hasMoved then some adj
        else do
          let ks ← castleSide (fun sq => getRawMovesF fuel board sq none)
            board row piece.color 7 [5, 6] [4, 5, 6] 6
          let qs ← castleSide (fun sq => getRawMovesF fuel board sq none)
            board row piece.color 0 [1, 2, 3] [4, 3, 2] 2
          some (adj ++ ks ++ qs)

/-- `isSquareAttacked` with the source's own generator. -/
def isSquareAttackedF (fuel : Nat) (board : Board) (pos : Position)
    (defenderColor : PieceColor) : Option Bool :=
  isSquareAttackedWith (fun sq => getRawMovesF fuel board sq none) board pos defenderColor

/-- `findKing`: the first king of the color, row-major. -/
def findKing (board : Board) (color : PieceColor) : Option Position :=
  allSquares.find? (fun p =>
    match rawGet board p.row p.col with
    | some piece => decide (piece.type = PieceType.king ∧ piece.color = color)
    | none => false)

/-- `isInCheck`; returns `false` without consulting the attack scan when the
color has no king on the board. -/
def isInCheckF (fuel : Nat) (board : Board) (color : PieceColor) : Option Bool :=
  match findKing board color with
  | none => some false
  | some kingPos => isSquareAttackedF fuel board kingPos color

/-- The scratch board of `getLegalMoves`'s loop body: play the move on a
clone, marking the piece moved, with en-passant removal. -/
def testBoardFor (board : Board) (pos : Position) (piece : Piece)
    (enPassantTarget : Option Position) (move : Position) : Board :=
  let tb := cloneBoard board
  let tb := rawSet tb move.row move.col (some { piece with hasMoved := true })
  let tb := rawSet tb pos.row pos.col none
  if piece.type = PieceType.pawn then
    match enPassantTarget with
    | some ep =>
      if move.row = ep.row ∧ move.col = ep.col then
        let capturedPawnRow :=
          if piece.color = PieceColor.white then move.row + 1 else move.row - 1
        rawSet tb capturedPawnRow move.col none
      else tb
    | none => tb
  else tb

/-- The filtering loop of `getLegalMoves`: keep the raw moves that do not
leave the mover's king in check. -/
def legalFilterF (fuel : Nat) (board : Board) (pos : Position) (piece : Piece)
    (enPassantTarget : Option Position) : List Position → Option (List Position)
  | [] => some []
  | move :: rest => do
    let inCheck ← isInCheckF fuel (testBoardFor board pos piece enPassantTarget move)
      piece.color
    let keep ← legalFilterF fuel board pos piece enPassantTarget rest
    some (if inCheck then keep else move :: keep)

/-- `getLegalMoves`. -/
def getLegalMovesF (fuel : Nat) (board : Board) (pos : Position)
    (enPassantTarget : Option Position) : Option (List Position) :=
  match getPiece board pos with
  | none => some []
  | some piece => do
    let rawMoves ← getRawMovesF fuel board pos enPassantTarget
    legalFilterF fuel board pos piece enPassantTarget rawMoves

def pieceLetter : PieceType → String
  | .king => "K" | .queen => "Q" | .rook => "R"
  | .bishop => "B" | .knight => "N" | .pawn => ""

/-- `files[col]` for `files = 'abcdefgh'`. -/
def fileChar (c : Int) : String :=
  String.singleton (['a', 'b', 'c', 'd', 'e', 'f', 'g', 'h'].getD c.toNat 'a')

/-- `generateNotation` (its `board` argument is unused by the source too). -/
def generateNotation (_board : Board) (move : Move) : String :=
  match move.castling with
  | some .kingside => "O-O"
  | some .queenside => "O-O-O"
  | none =>
    let n1 := if move.piece.type ≠ PieceType.pawn then pieceLetter move.piece.type else ""
    let n2 :=
      if move.captured.isSome || move.enPassant then
        (if move.piece.type = PieceType.pawn then fileChar move.from'.col else "") ++ "x"
      else ""
    let n3 := fileChar move.to'.col ++ toString (8 - move.to'.row)
    let n4 :=
      match move.promotion with
      | some pt => "=" ++ pieceLetter pt
      | none => ""
    n1 ++ n2 ++ n3 ++ n4

/-- The board after the accepted move, exactly the source's mutation
sequence on the clone: castling rook relocation, en-passant removal,
promotion-or-normal placement at `to`, clearing `from`.  (On a castle the
source reads the rook with a non-null assertion; move generation guarantees
it is present, and the embedding maps an absent rook to an empty square.) -/
def applyBoard (state : GameState) (from' to' : Position)
    (promotion : Option PieceType) (piece : Piece) : Board :=
  let newBoard := cloneBoard state.board
  let newBoard :=
    if piece.type = PieceType.king ∧ (to'.col - from'.col).natAbs = 2 then
      let isKingside := from'.col < to'.col
      let rookFromCol : Int := if isKingside then 7 else 0
      let rookToCol : Int := if isKingside then 5 else 3
      let nb := rawSet newBoard from'.row rookToCol
        ((rawGet newBoard from'.row rookFromCol).map (fun rp => { rp with hasMoved := true }))
      rawSet nb from'.row rookFromCol none
    else newBoard
  let newBoard :=
    if piece.type = PieceType.pawn then
      match state.enPassantTarget with
      | some ep =>
        if to'.row = ep.row ∧ to'.col = ep.col then
          let capturedPawnRow :=
            if piece.color = PieceColor.white then to'.row + 1 else to'.row - 1
          rawSet newBoard capturedPawnRow to'.col none
        else newBoard
      | none => newBoard
    else newBoard
  let newBoard :=
    if piece.type = PieceType.pawn ∧ (to'.row = 0 ∨ to'.row = 7) then
      rawSet newBoard to'.row to'.col
        (some { type := promotion.getD PieceType.queen, color := piece.color,
                hasMoved := true })
    else rawSet newBoard to'.row to'.col (some { piece with hasMoved := true })
  rawSet newBoard from'.row from'.col none

/-- The `Move` record of the accepted move, as populated just before
notation generation, then completed with the notation. -/
def buildMove (state : GameState) (from' to' : Position)
    (promotion : Option PieceType) (piece : Piece) : Move :=
  let base : Move :=
    { from' := from', to' := to', piece := piece,
      captured := getPiece (cloneBoard state.board) to' }
  let base :=
    if piece.type = PieceType.king ∧ (to'.col - from'.col).natAbs = 2 then
      let side := if from'.col < to'.col then CastleSide.kingside else CastleSide.queenside
      { base with castling := some side }
    else base
  let base :=
    if piece.type = PieceType.pawn then
      match state.enPassantTarget with
      | some ep =>
        if to'.row = ep.row ∧ to'.col = ep.col then
          let capturedPawnRow :=
            if piece.color = PieceColor.white then to'.row + 1 else to'.row - 1
          { base with captured := rawGet (cloneBoard state.board) capturedPawnRow to'.col,
                      enPassant := true }
        else base
      | none => base
    else base
  let base :=
    if piece.type = PieceType.pawn ∧ (to'.row = 0 ∨ to'.row = 7) then
      { base with promotion := some (promotion.getD PieceType.queen) }
    else base
  { base with notationStr := some (generateNotation state.board base) }

/-- `newEnPassantTarget`: set only on a two-square pawn move, to the square
passed over. -/
def newEpTarget (from' to' : Position) (piece : Piece) : Option Position :=
  if piece.type = PieceType.pawn ∧ (to'.row - from'.row).natAbs = 2 then
    some ⟨(from'.row + to'.row) / 2, from'.col⟩
  else none

/-- The checkmate/stalemate scan of `makeMove`: does any piece of `color`
have a nonempty legal-move list on `board`? -/
def hasLegalScanF (fuel : Nat) (board : Board) (color : PieceColor)
    (enPassantTarget : Option Position) : List Position → Option Bool
  | [] => some false
  | sq :: rest =>
    match rawGet board sq.row sq.col with
    | some p =>
      if p.color = color then do
        let ms ← getLegalMovesF fuel board sq enPassantTarget
        if ms.length > 0 then some true
        else hasLegalScanF fuel board color enPassantTarget rest
      else hasLegalScanF fuel board color enPassantTarget rest
    | none => hasLegalScanF fuel board color enPassantTarget rest

def sideHasLegalMovesF (fuel : Nat) (board : Board) (color : PieceColor)
    (enPassantTarget : Option Position) : Option Bool :=
  hasLegalScanF fuel board color enPassantTarget allSquares

/-- The record `{ ...state, board, turn, status, moves, lastMove,
enPassantTarget, winner }` returned by an accepted `makeMove`: the spread
carries every unlisted field — `whiteTime`, `blackTime`, and notably
`drawOffer` — over unchanged. -/
def acceptedState (state : GameState) (nb : Board) (mv : Move)
    (ep : Option Position) (nt : PieceColor) (st : Status)
    (w : Option PieceColor) : GameState :=
  { state with
    board := nb, turn := nt, status := st,
    moves := state.moves ++ [mv], lastMove := some mv,
    enPassantTarget := ep, winner := w }

/-- The accepted-move tail of `makeMove`. -/
def makeMoveAccepted (fuel : Nat) (state : GameState) (from' to' : Position)
    (promotion : Option PieceType) (piece : Piece) : Option (Option GameState) :=
  let newBoard := applyBoard state from' to' promotion piece
  let move := buildMove state from' to' promotion piece
  let newEnPassantTarget := newEpTarget from' to' piece
  let nextTurn := if state.turn = PieceColor.white then PieceColor.black else PieceColor.white
  let status1 := if state.status = Status.waiting then Status.playing else state.status
  match sideHasLegalMovesF fuel newBoard nextTurn newEnPassantTarget with
  | none => none
  | some true =>
    some (some (acceptedState state newBoard move newEnPassantTarget nextTurn status1 none))
  | some false =>
    match isInCheckF fuel newBoard nextTurn with
    | none => none
    | some true =>
      some (some (acceptedState state newBoard move newEnPassantTarget nextTurn
        Status.checkmate (some state.turn)))
    | some false =>
      some (some (acceptedState state newBoard move newEnPassantTarget nextTurn
        Status.stalemate none))

/-- `makeMove(state, from, to, promotion)`.  Outer `none` = the nested
attack/legality recursion ran out of fuel (the source would overflow the
stack); `some none` = the source returns `null` (rejection);
`some (some s)` = the source returns the new state `s`. -/
def makeMoveF (fuel : Nat) (state : GameState) (from' to' : Position)
    (promotion : Option PieceType) : Option (Option GameState) :=
  match getPiece state.board from' with
  | none => some none
  | some piece =>
    if piece.color ≠ state.turn then some none
    else
      match getLegalMovesF fuel state.board from' state.enPassantTarget with
      | none => none
      | some legalMoves =>
        if legalMoves.any (fun m => decide (m.row = to'.row ∧ m.col = to'.col)) then
          makeMoveAccepted fuel state from' to' promotion piece
        else some none

/-! ## Basic lemmas -/

/-- `cloneBoard` is a deep copy: the copied board is (value-)equal to the
original, so the JS mutations of `makeMove`, all performed on the clone or
on the fresh returned object, can never change the input state. -/
theorem cloneBoard_eq (b : Board) : cloneBoard b = b := by
  have hrow : ∀ row : List Square, (row.map (fun piece =>
      match piece with
      | some p => some { type := p.type, color := p.color, hasMoved := p.hasMoved }
      | none => (none : Square))) = row := by
    intro row
    induction row with
    | nil => rfl
    | cons a rest ih => cases a <;> simp [ih]
  unfold cloneBoard
  induction b with
  | nil => rfl
  | cons r rs ih => simpa [hrow r] using ih

/-- The turn opposite to `c`. -/
def flipColor (c : PieceColor) : PieceColor :=
  if c = PieceColor.white then PieceColor.black else PieceColor.white

/-- Inversion of an accepted `makeMove`: the guards passed. -/
theorem makeMoveF_acc_inv {fuel : Nat} {s : GameState} {f t : Position}
    {p : Option PieceType} {s' : GameState}
    (h : makeMoveF fuel s f t p = some (some s')) :
    ∃ piece, getPiece s.board f = some piece ∧ piece.color = s.turn ∧
      ∃ legal, getLegalMovesF fuel s.board f s.enPassantTarget = some legal ∧
        legal.any (fun m => decide (m.row = t.row ∧ m.col = t.col)) = true ∧
        makeMoveAccepted fuel s f t p piece = some (some s') := by
  unfold makeMoveF at h
  split at h
  · exact absurd h (by simp)
  · rename_i piece hp
    split at h
    · exact absurd h (by simp)
    · rename_i hc
      split at h
      · exact absurd h (by simp)
      · rename_i legal hl
        split at h
        · rename_i ha
          exact ⟨piece, hp, not_not.mp hc, legal, hl, ha, h⟩
        · exact absurd h (by simp)

/-- Inversion of the accepted-move tail: the three possible result shapes
(game goes on / checkmate / stalemate), all sharing the same board, move
record, turn flip and en-passant target, and all leaving every unlisted
field — `drawOffer` included — as in the input state. -/
theorem makeMoveAccepted_inv {fuel : Nat} {s : GameState} {f t : Position}
    {p : Option PieceType} {piece : Piece} {s' : GameState}
    (h : makeMoveAccepted fuel s f t p piece = some (some s')) :
    (sideHasLegalMovesF fuel (applyBoard s f t p piece) (flipColor s.turn)
        (newEpTarget f t piece) = some true ∧
      s' = acceptedState s (applyBoard s f t p piece) (buildMove s f t p piece)
        (newEpTarget f t piece) (flipColor s.turn)
        (if s.status = Status.waiting then Status.playing else s.status) none) ∨
    (sideHasLegalMovesF fuel (applyBoard s f t p piece) (flipColor s.turn)
        (newEpTarget f t piece) = some false ∧
      isInCheckF fuel (applyBoard s f t p piece) (flipColor s.turn) = some true ∧
      s' = acceptedState s (applyBoard s f t p piece) (buildMove s f t p piece)
        (newEpTarget f t piece) (flipColor s.turn) Status.checkmate (some s.turn)) ∨
    (sideHasLegalMovesF fuel (applyBoard s f t p piece) (flipColor s.turn)
        (newEpTarget f t piece) = some false ∧
      isInCheckF fuel (applyBoard s f t p piece) (flipColor s.turn) = some false ∧
      s' = acceptedState s (applyBoard s f t p piece) (buildMove s f t p piece)
        (newEpTarget f t piece) (flipColor s.turn) Status.stalemate none) := by
  simp only [makeMoveAccepted,
    show (if s.turn = PieceColor.white then PieceColor.black else PieceColor.white)
      = flipColor s.turn from rfl] at h
  cases hscan : sideHasLegalMovesF fuel (applyBoard s f t p piece) (flipColor s.turn)
      (newEpTarget f t piece) with
  | none => simp only [hscan] at h; exact Option.noConfusion h
  | some b =>
    cases b with
    | true =>
      simp only [hscan, Option.some.injEq] at h
      exact Or.inl ⟨rfl, h.symm⟩
    | false =>
      cases hchk : isInCheckF fuel (applyBoard s f t p piece) (flipColor s.turn) with
      | none => simp only [hscan, hchk] at h; exact Option.noConfusion h
      | some c =>
        cases c with
        | true =>
          simp only [hscan, hchk, Option.some.injEq] at h
          exact Or.inr (Or.inl ⟨rfl, rfl, h.symm⟩)
        | false =>
          simp only [hscan, hchk, Option.some.injEq] at h
          exact Or.inr (Or.inr ⟨rfl, rfl, h.symm⟩)

/-! ## Concrete positions used by witnesses and counterexamples -/

def dummyState : GameState :=
  { board := createInitialBoard, turn := .white, status := .waiting,
    moves := [], whiteTime := 600, blackTime := 600 }

/-- Unwrap an accepted `makeMoveF` result. -/
def resultState (r : Option (Option GameState)) : GameState :=
  (r.getD none).getD dummyState

/-- A small playable position: white pawn a2, white king h1 (moved), black
king h8 (moved); white to move. -/
def smallBoard : Board :=
  [[none, none, none, none, none, none, none,
    some { type := PieceType.king, color := PieceColor.black, hasMoved := true }],
   emptyRank, emptyRank, emptyRank, emptyRank, emptyRank,
   [some { type := PieceType.pawn, color := PieceColor.white },
    none, none, none, none, none, none, none],
   [none, none, none, none, none, none, none,
    some { type := PieceType.king, color := PieceColor.white, hasMoved := true }]]

def smallState : GameState :=
  { board := smallBoard, turn := PieceColor.white, status := Status.playing,
    moves := [], whiteTime := 600, blackTime := 600 }

def noKingBoard : Board := List.replicate 8 emptyRank

/-! ## C10 -/

/-- C10: on a board with no king of the given color, `isInCheck` totally
returns `false` — at every fuel, in particular at fuel 0, so
`isSquareAttacked` is never consulted for a king square; the missing-king
case is silently tolerated rather than failing. -/
theorem c10_missing_king_tolerated (board : Board) (color : PieceColor)
    (h : findKing board color = none) :
    ∀ fuel, isInCheckF fuel board color = some false := by
  intro fuel
  unfold isInCheckF
  rw [h]

theorem c10_missing_king_tolerated_witness :
    findKing noKingBoard PieceColor.white = none ∧
    isInCheckF 0 noKingBoard PieceColor.white = some false :=
  ⟨by decide, c10_missing_king_tolerated noKingBoard PieceColor.white (by decide) 0⟩

/-! ## C1 -/

/-- The accepted-move tail is insensitive to the status field as far as
acceptance is concerned: only the status of the result differs. -/
theorem makeMoveAccepted_status_irrel (fuel : Nat) (s : GameState) (st : Status)
    (f t : Position) (p : Option PieceType) (piece : Piece) :
    (makeMoveAccepted fuel { s with status := st } f t p piece).map Option.isSome =
      (makeMoveAccepted fuel s f t p piece).map Option.isSome := by
  have hb : applyBoard { s with status := st } f t p piece = applyBoard s f t p piece := rfl
  have hm : buildMove { s with status := st } f t p piece = buildMove s f t p piece := rfl
  simp only [makeMoveAccepted, hb, hm]
  dsimp only
  cases hscan : sideHasLegalMovesF fuel (applyBoard s f t p piece)
      (if s.turn = PieceColor.white then PieceColor.black else PieceColor.white)
      (newEpTarget f t piece) with
  | none => simp [hscan]
  | some b =>
    cases b with
    | true => simp [hscan]
    | false =>
      cases hchk : isInCheckF fuel (applyBoard s f t p piece)
          (if s.turn = PieceColor.white then PieceColor.black else PieceColor.white) with
      | none => simp [hscan, hchk]
      | some c => cases c <;> simp [hscan, hchk]

/-- C1 (amended): `makeMove` never consults `state.status` when deciding a
move: overwriting the status field with any value — terminal or not —
changes neither rejection nor acceptance.  A terminal-status state whose
side to move still has a legal destination therefore has that move
accepted; checkmate/stalemate states produced by `makeMove` itself reject
every move only because the side to move has no legal destination (and a
moved-out-of-turn piece fails the color test). -/
theorem c1_status_never_consulted (fuel : Nat) (s : GameState) (st : Status)
    (f t : Position) (p : Option PieceType) :
    (makeMoveF fuel { s with status := st } f t p).map Option.isSome =
      (makeMoveF fuel s f t p).map Option.isSome := by
  simp only [makeMoveF]
  cases hp : getPiece s.board f with
  | none => rfl
  | some piece =>
    by_cases hc : piece.color ≠ s.turn
    · simp only [if_pos hc]
    · simp only [if_neg hc]
      cases hl : getLegalMovesF fuel s.board f s.enPassantTarget with
      | none => rfl
      | some legal =>
        by_cases ha : legal.any (fun m => decide (m.row = t.row ∧ m.col = t.col)) = true
        · simp only [if_pos ha]
          exact makeMoveAccepted_status_irrel fuel s st f t p piece
        · simp only [if_neg ha]

/-- C1 counterexample: a state whose status is `resigned` (terminal) still
has the pawn move a2–a3 accepted (`makeMove` returns a new state, not
`null`). -/
theorem c1_terminal_accepts_counterexample :
    ({ smallState with status := Status.resigned } : GameState).status = Status.resigned ∧
    (makeMoveF 10 { smallState with status := Status.resigned } ⟨6, 0⟩ ⟨5, 0⟩ none).map
        Option.isSome = some true :=
  ⟨rfl, by decide⟩

/-! ## C2 -/

/-- C2 (amended): a pending `drawOffer` is *not* cleared by `makeMove`: the
accepted result carries `drawOffer` over unchanged (the source's returned
record spreads the input state and never mentions `drawOffer`; it is
cleared only by the orchestrator's accept/decline handlers outside the
engine). -/
theorem c2_drawOffer_survives (fuel : Nat) (s : GameState) (f t : Position)
    (p : Option PieceType) (s' : GameState)
    (h : makeMoveF fuel s f t p = some (some s')) :
    s'.drawOffer = s.drawOffer := by
  obtain ⟨piece, hp, hc, legal, hl, ha, hacc⟩ := makeMoveF_acc_inv h
  rcases makeMoveAccepted_inv hacc with ⟨_, rfl⟩ | ⟨_, _, rfl⟩ | ⟨_, _, rfl⟩ <;> rfl

def c2State : GameState := { smallState with drawOffer := some PieceColor.white }

def c2Result : GameState := resultState (makeMoveF 10 c2State ⟨6, 0⟩ ⟨5, 0⟩ none)

/-- C2 counterexample: with white's draw offer pending, the accepted move
a2–a3 returns a state whose `drawOffer` is still white's — not cleared. -/
theorem c2_drawOffer_cleared_counterexample :
    (makeMoveF 10 c2State ⟨6, 0⟩ ⟨5, 0⟩ none).map Option.isSome = some true ∧
    c2Result.drawOffer = some PieceColor.white := by
  exact ⟨by decide, by decide⟩

theorem c2_drawOffer_survives_witness :
    c2Result.drawOffer = c2State.drawOffer :=
  c2_drawOffer_survives 10 c2State ⟨6, 0⟩ ⟨5, 0⟩ none c2Result (by decide)

/-! ## C4 -/

/-- C4: every rejection — no piece at `from`, wrong-color piece, or a
destination not among the computed legal moves — returns `null`; and
`cloneBoard` is value-equal to its input, so the mutations of `makeMove`
(all applied to the clone and to the fresh result record) leave the input
state bitwise intact: the embedding of `makeMove` is a pure function that
never modifies its argument. -/
theorem c4_rejection_returns_null (fuel : Nat) (s : GameState) (f t : Position)
    (p : Option PieceType) :
    (getPiece s.board f = none → makeMoveF fuel s f t p = some none) ∧
    (∀ piece, getPiece s.board f = some piece → piece.color ≠ s.turn →
      makeMoveF fuel s f t p = some none) ∧
    (∀ piece legal, getPiece s.board f = some piece → piece.color = s.turn →
      getLegalMovesF fuel s.board f s.enPassantTarget = some legal →
      legal.any (fun m => decide (m.row = t.row ∧ m.col = t.col)) = false →
      makeMoveF fuel s f t p = some none) ∧
    cloneBoard s.board = s.board := by
  refine ⟨?_, ?_, ?_, cloneBoard_eq s.board⟩
  · intro h
    simp [makeMoveF, h]
  · intro piece hp hc
    simp [makeMoveF, hp, hc]
  · intro piece legal hp hc hl ha
    simp only [makeMoveF, hp, hl, if_neg (not_not_intro hc)]
    rw [if_neg (by rw [ha]; exact Bool.false_ne_true)]

theorem c4_rejection_returns_null_witness :
    makeMoveF 5 smallState ⟨4, 4⟩ ⟨3, 4⟩ none = some none ∧
    makeMoveF 5 smallState ⟨0, 7⟩ ⟨1, 7⟩ none = some none ∧
    makeMoveF 5 smallState ⟨6, 0⟩ ⟨3, 0⟩ none = some none :=
  ⟨(c4_rejection_returns_null 5 smallState ⟨4, 4⟩ ⟨3, 4⟩ none).1 (by decide),
   (c4_rejection_returns_null 5 smallState ⟨0, 7⟩ ⟨1, 7⟩ none).2.1
     { type := .king, color := .black, hasMoved := true } (by decide) (by decide),
   (c4_rejection_returns_null 5 smallState ⟨6, 0⟩ ⟨3, 0⟩ none).2.2.1
     { type := .pawn, color := .white } [⟨5, 0⟩, ⟨4, 0⟩]
     (by decide) (by decide) (by decide) (by decide)⟩

/-! ## C7 -/

/-- C7: the `enPassantTarget` of every accepted move's result is the square
passed over — `((from.row + to.row) / 2, from.col)` — exactly when the moved
piece is a pawn advancing two rows, and absent otherwise; in particular it
is never carried over from the previous state. -/
theorem c7_en_passant_window (fuel : Nat) (s : GameState) (f t : Position)
    (p : Option PieceType) (piece : Piece) (s' : GameState)
    (hp : getPiece s.board f = some piece)
    (h : makeMoveF fuel s f t p = some (some s')) :
    s'.enPassantTarget =
      if piece.type = PieceType.pawn ∧ (t.row - f.row).natAbs = 2 then
        some ⟨(f.row + t.row) / 2, f.col⟩
      else none := by
  obtain ⟨piece', hp', hc, legal, hl, ha, hacc⟩ := makeMoveF_acc_inv h
  have hpe : piece' = piece := by
    rw [hp] at hp'
    exact (Option.some.inj hp').symm
  subst hpe
  rcases makeMoveAccepted_inv hacc with ⟨_, rfl⟩ | ⟨_, _, rfl⟩ | ⟨_, _, rfl⟩ <;>
    simp [acceptedState, newEpTarget]

def c7Result : GameState := resultState (makeMoveF 10 smallState ⟨6, 0⟩ ⟨4, 0⟩ none)

theorem c7_en_passant_window_witness : c7Result.enPassantTarget = some ⟨5, 0⟩ := by
  rw [c7_en_passant_window 10 smallState ⟨6, 0⟩ ⟨4, 0⟩ none
    { type := PieceType.pawn, color := PieceColor.white } c7Result (by decide) (by decide)]
  decide

/-! ## Indexing lemmas for `rawGet`/`rawSet` -/

theorem getD_set_ne {α : Type _} (l : List α) (i j : Nat) (a : α) (d : α)
    (h : i ≠ j) : (l.set i a).getD j d = l.getD j d := by
  simp [List.getD_eq_getElem?_getD, List.getElem?_set_ne h]

theorem getD_set_lt {α : Type _} (l : List α) (i : Nat) (a : α) (d : α)
    (h : i < l.length) : (l.set i a).getD i d = a := by
  simp [List.getD_eq_getElem?_getD, List.getElem?_set_eq_of_lt _ h]

theorem getD_len_le {α : Type _} (l : List α) (i : Nat) (d : α)
    (h : l.length ≤ i) : l.getD i d = d := by
  simp [List.getD_eq_getElem?_getD, List.getElem?_eq_none h]

theorem rawSet_length (b : Board) (r c : Int) (v : Square) :
    (rawSet b r c v).length = b.length := by
  simp [rawSet]

/-- A `rawSet` never changes the length of any row. -/
theorem rawSet_row_length (b : Board) (r c : Int) (v : Square) (j : Nat) :
    ((rawSet b r c v).getD j []).length = (b.getD j []).length := by
  unfold rawSet
  by_cases hj : r.toNat = j
  · subst hj
    by_cases hlen : r.toNat < b.length
    · rw [getD_set_lt _ _ _ _ hlen, List.length_set]
    · rw [getD_len_le _ _ _ (by simpa using le_of_not_lt hlen),
        getD_len_le _ _ _ (le_of_not_lt hlen)]
  · rw [getD_set_ne _ _ _ _ _ hj]

theorem rawGet_rawSet_ne (b : Board) (r c r' c' : Int) (v : Square)
    (h : r.toNat ≠ r'.toNat ∨ c.toNat ≠ c'.toNat) :
    rawGet (rawSet b r c v) r' c' = rawGet b r' c' := by
  unfold rawGet rawSet
  by_cases hr : r.toNat = r'.toNat
  · rcases h with h | h
    · exact absurd hr h
    · rw [← hr]
      by_cases hlen : r.toNat < b.length
      · rw [getD_set_lt _ _ _ _ hlen, getD_set_ne _ _ _ _ _ h]
      · have e1 : (b.set r.toNat ((b.getD r.toNat []).set c.toNat v)).getD r.toNat
            ([] : List Square) = [] :=
          getD_len_le _ _ _ (by simpa using le_of_not_lt hlen)
        have e2 : b.getD r.toNat ([] : List Square) = [] :=
          getD_len_le _ _ _ (le_of_not_lt hlen)
        rw [e1, e2]
  · rw [getD_set_ne _ _ _ _ _ hr]

theorem rawGet_rawSet_eq (b : Board) (r c : Int) (v : Square)
    (hr : r.toNat < b.length) (hc : c.toNat < (b.getD r.toNat []).length) :
    rawGet (rawSet b r c v) r c = v := by
  unfold rawGet rawSet
  rw [getD_set_lt _ _ _ _ hr, getD_set_lt _ _ _ _ hc]

/-- The spec's well-formedness of a board: an 8×8 grid. -/
def boardWF (b : Board) : Prop := b.length = 8 ∧ ∀ row ∈ b, row.length = 8

instance (b : Board) : Decidable (boardWF b) := by
  unfold boardWF
  exact instDecidableAnd

theorem valid_toNat {pos : Position} (h : isValidPosition pos = true) :
    pos.row.toNat < 8 ∧ pos.col.toNat < 8 ∧
      pos.row.toNat = pos.row ∧ pos.col.toNat = pos.col := by
  unfold isValidPosition at h
  simp only [Bool.and_eq_true, decide_eq_true_eq] at h
  refine ⟨by omega, by omega, by omega, by omega⟩

theorem boardWF_row_length {b : Board} (hb : boardWF b) {i : Nat} (h : i < 8) :
    (b.getD i []).length = 8 := by
  have hlen : i < b.length := by rw [hb.1]; exact h
  rw [List.getD_eq_getElem?_getD, List.getElem?_eq_getElem hlen]
  exact hb.2 _ (List.getElem_mem hlen)

theorem isValidPosition_iff {p : Position} :
    isValidPosition p = true ↔ 0 ≤ p.row ∧ p.row < 8 ∧ 0 ≤ p.col ∧ p.col < 8 := by
  unfold isValidPosition
  simp [Bool.and_eq_true, decide_eq_true_eq, and_assoc]

theorem getPiece_valid {board : Board} {pos : Position} {piece : Piece}
    (hp : getPiece board pos = some piece) : isValidPosition pos = true := by
  unfold getPiece at hp
  by_cases h : isValidPosition pos = true
  · exact h
  · rw [if_neg h] at hp
    cases hp

/-- Membership in one pawn-capture step of the `[-1, 1]` loop. -/
theorem pawn_step_mem (board : Board) (c0 : PieceColor) (ep : Option Position)
    (r c dc : Int) (acc : List Position) (x : Position)
    (hx : x ∈ (if isValidPosition ⟨r, c + dc⟩ = true then
        ((match getPiece board ⟨r, c + dc⟩ with
          | some target => if target.color ≠ c0 then [(⟨r, c + dc⟩ : Position)] else []
          | none => []) ++
         (match ep with
          | some e => if r = e.row ∧ c + dc = e.col then [(⟨r, c + dc⟩ : Position)] else []
          | none => [])) ++ acc
      else acc)) :
    (x = ⟨r, c + dc⟩ ∧ isValidPosition (⟨r, c + dc⟩ : Position) = true) ∨ x ∈ acc := by
  split at hx
  · rename_i hval
    rw [List.mem_append, List.mem_append] at hx
    rcases hx with (hx | hx) | hx
    · split at hx
      · split at hx
        · rw [List.mem_singleton] at hx
          exact Or.inl ⟨hx, hval⟩
        · cases hx
      · cases hx
    · split at hx
      · split at hx
        · rw [List.mem_singleton] at hx
          exact Or.inl ⟨hx, hval⟩
        · cases hx
      · cases hx
    · exact Or.inr hx
  · exact Or.inr hx

/-- Membership in the whole pawn branch, for either color (`d` the
direction, `sr` the starting row). -/
theorem pawn_branch_mem (board : Board) (ep : Option Position) (pos x : Position)
    (c0 : PieceColor) (d sr : Int)
    (hd : d = -1 ∨ d = 1)
    (hvp : 0 ≤ pos.row ∧ pos.row < 8 ∧ 0 ≤ pos.col ∧ pos.col < 8)
    (hsr : 0 ≤ sr + 2 * d ∧ sr + 2 * d < 8)
    (hx : x ∈ (if (isValidPosition ⟨pos.row + d, pos.col⟩ &&
          (getPiece board ⟨pos.row + d, pos.col⟩).isNone) = true then
        (⟨pos.row + d, pos.col⟩ : Position) ::
          (if pos.row = sr then
            (if (getPiece board ⟨pos.row + 2 * d, pos.col⟩).isNone = true then
              [(⟨pos.row + 2 * d, pos.col⟩ : Position)]
            else [])
          else [])
      else []) ++
      List.foldr
        (fun dc acc =>
          if isValidPosition ⟨pos.row + d, pos.col + dc⟩ = true then
            ((match getPiece board ⟨pos.row + d, pos.col + dc⟩ with
              | some target =>
                if target.color ≠ c0 then [(⟨pos.row + d, pos.col + dc⟩ : Position)] else []
              | none => []) ++
              match ep with
              | some e =>
                if pos.row + d = e.row ∧ pos.col + dc = e.col then
                  [(⟨pos.row + d, pos.col + dc⟩ : Position)]
                else []
              | none => []) ++ acc
          else acc)
        [] [-1, 1]) :
    x.row ≠ pos.row ∧ isValidPosition x = true := by
  rw [List.mem_append] at hx
  rcases hx with hx | hx
  · split at hx
    · rename_i hcond
      rw [Bool.and_eq_true] at hcond
      rcases List.mem_cons.mp hx with rfl | hx2
      · exact ⟨by show pos.row + d ≠ pos.row; rcases hd with rfl | rfl <;> omega, hcond.1⟩
      · split at hx2
        · rename_i hstart
          split at hx2
          · rw [List.mem_singleton] at hx2
            subst hx2
            refine ⟨by show pos.row + 2 * d ≠ pos.row; rcases hd with rfl | rfl <;> omega, ?_⟩
            exact isValidPosition_iff.mpr
              ⟨by show (0 : Int) ≤ pos.row + 2 * d; omega,
               by show pos.row + 2 * d < 8; omega,
               by show (0 : Int) ≤ pos.col; omega,
               by show pos.col < 8; omega⟩
          · cases hx2
        · cases hx2
    · cases hx
  · simp only [List.foldr_cons, List.foldr_nil] at hx
    rcases pawn_step_mem board c0 ep (pos.row + d) pos.col (-1) _ x hx with ⟨rfl, hval⟩ | hx1
    · exact ⟨by show pos.row + d ≠ pos.row; rcases hd with rfl | rfl <;> omega, hval⟩
    · rcases pawn_step_mem board c0 ep (pos.row + d) pos.col 1 _ x hx1 with ⟨rfl, hval⟩ | hx2
      · exact ⟨by show pos.row + d ≠ pos.row; rcases hd with rfl | rfl <;> omega, hval⟩
      · cases hx2

/-- Every raw move of a pawn changes row and lands on a valid square. -/
theorem pawn_raw_step {fuel : Nat} {board : Board} {pos : Position}
    {ep : Option Position} {raw : List Position} {piece : Piece}
    (hp : getPiece board pos = some piece)
    (hty : piece.type = PieceType.pawn)
    (h : getRawMovesF fuel board pos ep = some raw) :
    ∀ x ∈ raw, x.row ≠ pos.row ∧ isValidPosition x = true := by
  have hvp := isValidPosition_iff.mp (getPiece_valid hp)
  cases fuel with
  | zero => cases h
  | succ n =>
    simp only [getRawMovesF, hp, hty] at h
    cases hcol : piece.color with
    | white =>
      simp only [hcol, reduceIte, Option.some.injEq] at h
      subst h
      intro x hx
      exact pawn_branch_mem board ep pos x PieceColor.white (-1) 6 (Or.inl rfl) hvp
        (by omega) hx
    | black =>
      simp only [hcol, reduceIte, Option.some.injEq] at h
      subst h
      intro x hx
      exact pawn_branch_mem board ep pos x PieceColor.black 1 1 (Or.inr rfl) hvp
        (by omega) hx

theorem legalFilterF_subset {fuel : Nat} {board : Board} {pos : Position}
    {piece : Piece} {ep : Option Position} :
    ∀ {ms l : List Position}, legalFilterF fuel board pos piece ep ms = some l →
      ∀ x ∈ l, x ∈ ms := by
  intro ms
  induction ms with
  | nil =>
    intro l h x hx
    simp only [legalFilterF, Option.some.injEq] at h
    subst h
    cases hx
  | cons m rest ih =>
    intro l h x hx
    unfold legalFilterF at h
    cases hchk : isInCheckF fuel (testBoardFor board pos piece ep m) piece.color with
    | none => rw [hchk] at h; cases h
    | some b =>
      rw [hchk] at h
      cases hrec : legalFilterF fuel board pos piece ep rest with
      | none => rw [hrec] at h; cases h
      | some keep =>
        rw [hrec] at h
        simp only [Option.bind_eq_bind, Option.some_bind, Option.some.injEq] at h
        subst h
        cases b with
        | true =>
          rw [if_pos rfl] at hx
          exact List.mem_cons_of_mem m (ih hrec x hx)
        | false =>
          rw [if_neg (by decide)] at hx
          rcases List.mem_cons.mp hx with rfl | hx2
          · exact List.mem_cons_self _ _
          · exact List.mem_cons_of_mem m (ih hrec x hx2)

theorem getLegalMovesF_sub {fuel : Nat} {board : Board} {pos : Position}
    {ep : Option Position} {legal : List Position} {piece : Piece}
    (hp : getPiece board pos = some piece)
    (h : getLegalMovesF fuel board pos ep = some legal) :
    ∃ raw, getRawMovesF fuel board pos ep = some raw ∧ ∀ x ∈ legal, x ∈ raw := by
  unfold getLegalMovesF at h
  rw [hp] at h
  cases hraw : getRawMovesF fuel board pos ep with
  | none => rw [hraw] at h; cases h
  | some raw =>
    rw [hraw] at h
    simp only [Option.some_bind] at h
    exact ⟨raw, rfl, legalFilterF_subset h⟩

theorem buildMove_promotion (s : GameState) (f t : Position) (p : Option PieceType)
    (piece : Piece) (hty : piece.type = PieceType.pawn)
    (hrank : t.row = 0 ∨ t.row = 7) :
    (buildMove s f t p piece).promotion = some (p.getD PieceType.queen) := by
  rcases hrank with h0 | h0 <;>
  cases hse : s.enPassantTarget with
  | none => simp [buildMove, hse, hty, h0]
  | some e =>
    by_cases hee : t.row = e.row ∧ t.col = e.col <;>
      simp [buildMove, hse, hty, h0, hee]

theorem rawGet_set_set (B1 : Board) (tr tc fr fc : Int) (v : Square)
    (hlen : tr.toNat < B1.length) (hrl : tc.toNat < (B1.getD tr.toNat []).length)
    (hne : fr.toNat ≠ tr.toNat) :
    rawGet (rawSet (rawSet B1 tr tc v) fr fc none) tr tc = v := by
  rw [rawGet_rawSet_ne _ _ _ _ _ _ (Or.inl hne), rawGet_rawSet_eq _ _ _ _ hlen hrl]

theorem applyBoard_promo_cell (s : GameState) (f t : Position) (p : Option PieceType)
    (piece : Piece) (hwf : boardWF s.board)
    (hvf : isValidPosition f = true) (hvt : isValidPosition t = true)
    (hty : piece.type = PieceType.pawn)
    (hrank : t.row = 0 ∨ t.row = 7) (hne : t.row ≠ f.row) :
    rawGet (applyBoard s f t p piece) t.row t.col =
      some { type := p.getD PieceType.queen, color := piece.color, hasMoved := true } := by
  have hvt' := isValidPosition_iff.mp hvt
  have hvf' := isValidPosition_iff.mp hvf
  have h1 : f.row.toNat ≠ t.row.toNat := by omega
  have h2 : t.row.toNat < 8 := by omega
  have h3 : t.col.toNat < 8 := by omega
  have hknot : ¬(PieceType.pawn = PieceType.king ∧ (t.col - f.col).natAbs = 2) := by simp
  cases hse : s.enPassantTarget with
  | none =>
    simp only [applyBoard, cloneBoard_eq, hty, hse, if_true, true_and, if_neg hknot]
    rw [if_pos hrank]
    exact rawGet_set_set s.board t.row t.col f.row f.col _ (by rw [hwf.1]; exact h2)
      (by rw [boardWF_row_length hwf h2]; exact h3) h1
  | some e =>
    by_cases hee : t.row = e.row ∧ t.col = e.col
    · simp only [applyBoard, cloneBoard_eq, hty, hse, if_true, true_and, if_neg hknot]
      rw [if_pos hee, if_pos hrank]
      exact rawGet_set_set _ t.row t.col f.row f.col _
        (by rw [rawSet_length, hwf.1]; exact h2)
        (by rw [rawSet_row_length, boardWF_row_length hwf h2]; exact h3) h1
    · simp only [applyBoard, cloneBoard_eq, hty, hse, if_true, true_and, if_neg hknot]
      rw [if_neg hee, if_pos hrank]
      exact rawGet_set_set s.board t.row t.col f.row f.col _ (by rw [hwf.1]; exact h2)
        (by rw [boardWF_row_length hwf h2]; exact h3) h1

/-! ## C8 -/

/-- C8 (amended): when a pawn reaches the farthest rank the source replaces
it with `promotion || 'queen'` — the *requested* type whenever one was
passed, with no validity check (even `king` or `pawn` are honored), and
queen only when the argument was absent; the same value is recorded in the
move's `promotion` field. -/
theorem c8_promotion_not_validated (fuel : Nat) (s : GameState) (f t : Position)
    (p : Option PieceType) (piece : Piece) (s' : GameState)
    (hwf : boardWF s.board)
    (hp : getPiece s.board f = some piece)
    (hty : piece.type = PieceType.pawn)
    (hrank : t.row = 0 ∨ t.row = 7)
    (h : makeMoveF fuel s f t p = some (some s')) :
    rawGet s'.board t.row t.col =
      some { type := p.getD PieceType.queen, color := piece.color, hasMoved := true } ∧
    s'.lastMove.map Move.promotion = some (some (p.getD PieceType.queen)) := by
  obtain ⟨piece', hp', hc, legal, hl, ha, hacc⟩ := makeMoveF_acc_inv h
  rw [hp] at hp'
  obtain rfl : piece = piece' := Option.some.inj hp'
  have ht : t ∈ legal := by
    rcases List.any_eq_true.mp ha with ⟨m, hm, hmd⟩
    rw [decide_eq_true_eq] at hmd
    have hmt : m = t := by
      cases m
      cases t
      simp_all
    rwa [hmt] at hm
  obtain ⟨raw, hraw, hsub⟩ := getLegalMovesF_sub hp hl
  have hstep := pawn_raw_step hp hty hraw t (hsub t ht)
  have hboard := applyBoard_promo_cell s f t p piece hwf (getPiece_valid hp) hstep.2
    hty hrank hstep.1
  have hmv := buildMove_promotion s f t p piece hty hrank
  rcases makeMoveAccepted_inv hacc with ⟨_, rfl⟩ | ⟨_, _, rfl⟩ | ⟨_, _, rfl⟩ <;>
    exact ⟨hboard, by simp [acceptedState, hmv]⟩

/-- White pawn on a7 about to promote; both kings moved, tucked on h-files. -/
def c8Board : Board :=
  [[none, none, none, none, none, none, none,
    some { type := PieceType.king, color := PieceColor.black, hasMoved := true }],
   [some { type := PieceType.pawn, color := PieceColor.white },
    none, none, none, none, none, none, none],
   emptyRank, emptyRank, emptyRank, emptyRank, emptyRank,
   [none, none, none, none, none, none, none,
    some { type := PieceType.king, color := PieceColor.white, hasMoved := true }]]

def c8State : GameState :=
  { board := c8Board, turn := PieceColor.white, status := Status.playing,
    moves := [], whiteTime := 600, blackTime := 600 }

/-- C8 counterexample: an explicitly requested promotion to `king` — invalid
per the spec, which requires defaulting to queen — is honored verbatim: the
board ends up with a second white king. -/
theorem c8_promotion_king_counterexample :
    (makeMoveF 10 c8State ⟨1, 0⟩ ⟨0, 0⟩ (some PieceType.king)).map Option.isSome =
      some true ∧
    rawGet (resultState (makeMoveF 10 c8State ⟨1, 0⟩ ⟨0, 0⟩ (some PieceType.king))).board
        0 0 =
      some { type := PieceType.king, color := PieceColor.white, hasMoved := true } :=
  ⟨by decide, by decide⟩

def c8Result : GameState :=
  resultState (makeMoveF 10 c8State ⟨1, 0⟩ ⟨0, 0⟩ (some PieceType.rook))

theorem c8_promotion_not_validated_witness :
    rawGet c8Result.board 0 0 =
      some { type := PieceType.rook, color := PieceColor.white, hasMoved := true } ∧
    c8Result.lastMove.map Move.promotion = some (some PieceType.rook) := by
  have h := c8_promotion_not_validated 10 c8State ⟨1, 0⟩ ⟨0, 0⟩ (some PieceType.rook)
    { type := PieceType.pawn, color := PieceColor.white } c8Result (by decide) (by decide)
    rfl (Or.inl rfl) (by decide)
  simpa using h

/-! ## C5 -/

def mateBoard : Board :=
  [[some { type := PieceType.king, color := PieceColor.black, hasMoved := true },
    none, none, none, none, none, none, none],
   [none, none, none, none, none, none, none,
    some { type := PieceType.queen, color := PieceColor.white, hasMoved := true }],
   [none, none, some { type := PieceType.king, color := PieceColor.white, hasMoved := true },
    none, none, none, none, none],
   emptyRank, emptyRank, emptyRank, emptyRank, emptyRank]

def mateState : GameState :=
  { board := mateBoard, turn := PieceColor.white, status := Status.playing,
    moves := [], whiteTime := 600, blackTime := 600 }

/-- C5 (amended): after an accepted move from a `waiting` or `playing`
state, if the engine's scan finds no legal destination for the new side to
move then the status is `checkmate` with winner the side that just moved
when that side's king is in check, and `stalemate` with no winner
otherwise; when a legal move exists the status is `playing`.  (From an
artificial terminal-status pre-state the source keeps the old status
instead of `playing`, hence the restriction.) -/
theorem c5_terminal_detection (fuel : Nat) (s : GameState) (f t : Position)
    (p : Option PieceType) (s' : GameState)
    (hstat : s.status = Status.waiting ∨ s.status = Status.playing)
    (h : makeMoveF fuel s f t p = some (some s')) :
    (sideHasLegalMovesF fuel s'.board s'.turn s'.enPassantTarget = some false →
      (isInCheckF fuel s'.board s'.turn = some true →
        s'.status = Status.checkmate ∧ s'.winner = some s.turn) ∧
      (isInCheckF fuel s'.board s'.turn = some false →
        s'.status = Status.stalemate ∧ s'.winner = none)) ∧
    (sideHasLegalMovesF fuel s'.board s'.turn s'.enPassantTarget = some true →
      s'.status = Status.playing ∧ s'.winner = none) := by
  obtain ⟨piece, hp, hc, legal, hl, ha, hacc⟩ := makeMoveF_acc_inv h
  rcases makeMoveAccepted_inv hacc with ⟨hscan, rfl⟩ | ⟨hscan, hchk, rfl⟩ | ⟨hscan, hchk, rfl⟩
  · simp only [acceptedState]
    refine ⟨fun hscan' => absurd (hscan.symm.trans hscan') (by simp),
      fun _ => ⟨?_, trivial⟩⟩
    rcases hstat with h0 | h0 <;> simp [h0]
  · simp only [acceptedState]
    exact ⟨fun _ => ⟨fun _ => ⟨trivial, trivial⟩,
        fun hchk' => absurd (hchk.symm.trans hchk') (by simp)⟩,
      fun hscan' => absurd (hscan.symm.trans hscan') (by simp)⟩
  · simp only [acceptedState]
    exact ⟨fun _ => ⟨fun hchk' => absurd (hchk.symm.trans hchk') (by simp),
        fun _ => ⟨trivial, trivial⟩⟩,
      fun hscan' => absurd (hscan.symm.trans hscan') (by simp)⟩

def c5CexResult : GameState :=
  resultState (makeMoveF 10 { smallState with status := Status.draw } ⟨6, 0⟩ ⟨5, 0⟩ none)

/-- C5 counterexample: an accepted move from a `draw`-status state whose
opponent still has legal moves leaves the status `draw`, not `playing`. -/
theorem c5_terminal_detection_counterexample :
    (makeMoveF 10 { smallState with status := Status.draw } ⟨6, 0⟩ ⟨5, 0⟩ none).map
        Option.isSome = some true ∧
    sideHasLegalMovesF 10 c5CexResult.board c5CexResult.turn c5CexResult.enPassantTarget =
      some true ∧
    c5CexResult.status ≠ Status.playing :=
  ⟨by decide, by decide, by decide⟩

def c5MateResult : GameState := resultState (makeMoveF 20 mateState ⟨1, 7⟩ ⟨1, 1⟩ none)

theorem c5_terminal_detection_witness :
    c5MateResult.status = Status.checkmate ∧ c5MateResult.winner = some PieceColor.white := by
  have h := c5_terminal_detection 20 mateState ⟨1, 7⟩ ⟨1, 1⟩ none c5MateResult
    (Or.inr rfl) (by decide)
  exact (h.1 (by decide)).1 (by decide)

/-! ## C3 -/

/-- Both kings and both kingside rooks unmoved, f/g files empty: every
castling precondition short of the attack test holds for both sides at
once. -/
def loopBoard : Board :=
  [[none, none, none, none, some { type := PieceType.king, color := PieceColor.black },
    none, none, some { type := PieceType.rook, color := PieceColor.black }],
   emptyRank, emptyRank, emptyRank, emptyRank, emptyRank, emptyRank,
   [none, none, none, none, some { type := PieceType.king, color := PieceColor.white },
    none, none, some { type := PieceType.rook, color := PieceColor.white }]]

theorem attackScan_white_attacker (gen : Position → Option (List Position))
    (pos : Position) (h : gen ⟨7, 4⟩ = none) :
    attackScan gen loopBoard pos PieceColor.white allSquares = none := by
  simp [allSquares, List.range_succ, attackScan, loopBoard, rawGet, emptyRank, h]

theorem attackScan_black_attacker (gen : Position → Option (List Position))
    (pos : Position) (h : gen ⟨0, 4⟩ = none) :
    attackScan gen loopBoard pos PieceColor.black allSquares = none := by
  simp [allSquares, List.range_succ, attackScan, loopBoard, rawGet, emptyRank, h]

theorem loopBoard_diverges : ∀ fuel,
    getRawMovesF fuel loopBoard ⟨0, 4⟩ none = none ∧
    getRawMovesF fuel loopBoard ⟨7, 4⟩ none = none := by
  intro fuel
  induction fuel with
  | zero => exact ⟨rfl, rfl⟩
  | succ n ih =>
    constructor
    · have hatt := attackScan_white_attacker
        (fun sq => getRawMovesF n loopBoard sq none) ⟨0, 4⟩ ih.2
      have hbk : getPiece loopBoard ⟨0, 4⟩ =
          some { type := PieceType.king, color := PieceColor.black } := by decide
      have hrk : getPiece loopBoard ⟨0, 7⟩ =
          some { type := PieceType.rook, color := PieceColor.black } := by decide
      have h05 : getPiece loopBoard ⟨0, 5⟩ = (none : Square) := by decide
      have h06 : getPiece loopBoard ⟨0, 6⟩ = (none : Square) := by decide
      simp [getRawMovesF, castleSide, castleChecks, isSquareAttackedWith,
        hbk, hrk, h05, h06, hatt]
    · have hatt := attackScan_black_attacker
        (fun sq => getRawMovesF n loopBoard sq none) ⟨7, 4⟩ ih.1
      have hwk : getPiece loopBoard ⟨7, 4⟩ =
          some { type := PieceType.king, color := PieceColor.white } := by decide
      have hrk : getPiece loopBoard ⟨7, 7⟩ =
          some { type := PieceType.rook, color := PieceColor.white } := by decide
      have h75 : getPiece loopBoard ⟨7, 5⟩ = (none : Square) := by decide
      have h76 : getPiece loopBoard ⟨7, 6⟩ = (none : Square) := by decide
      simp [getRawMovesF, castleSide, castleChecks, isSquareAttackedWith,
        hwk, hrk, h75, h76, hatt]

/-- C3 fails on the code: `isSquareAttacked` calls the full `getRawMoves`,
castling branch included, and that branch calls `isSquareAttacked` back.
On `loopBoard` (a position reachable by ordinary development) the check
test `isInCheck(board, white)` never returns at any recursion depth — the
JS original overflows the stack. -/
theorem c3_castling_check_diverges :
    ∀ fuel, isInCheckF fuel loopBoard PieceColor.white = none := by
  intro fuel
  unfold isInCheckF
  have hk : findKing loopBoard PieceColor.white = some ⟨7, 4⟩ := by decide
  rw [hk]
  unfold isSquareAttackedF isSquareAttackedWith
  have h := (loopBoard_diverges fuel).1
  simp only [show (if PieceColor.white = PieceColor.white then PieceColor.black
      else PieceColor.white) = PieceColor.black from rfl]
  exact attackScan_black_attacker _ _ h


/-! ## C6 -/

theorem offsetMoves_mem {board : Board} {color : PieceColor} {row col : Int}
    {offs : List (Int × Int)} {x : Position}
    (hx : x ∈ offsetMoves board color row col offs) :
    ∃ d ∈ offs, x = (⟨row + d.1, col + d.2⟩ : Position) := by
  induction offs with
  | nil => cases hx
  | cons o os ih =>
    unfold offsetMoves at hx
    rw [List.foldr_cons] at hx
    dsimp only at hx
    split at hx
    · split at hx
      · rcases List.mem_cons.mp hx with rfl | hx2
        · exact ⟨o, List.mem_cons_self o os, rfl⟩
        · obtain ⟨d, hd, hdx⟩ := ih hx2
          exact ⟨d, List.mem_cons_of_mem o hd, hdx⟩
      · split at hx
        · rcases List.mem_cons.mp hx with rfl | hx2
          · exact ⟨o, List.mem_cons_self o os, rfl⟩
          · obtain ⟨d, hd, hdx⟩ := ih hx2
            exact ⟨d, List.mem_cons_of_mem o hd, hdx⟩
        · obtain ⟨d, hd, hdx⟩ := ih hx
          exact ⟨d, List.mem_cons_of_mem o hd, hdx⟩
    · obtain ⟨d, hd, hdx⟩ := ih hx
      exact ⟨d, List.mem_cons_of_mem o hd, hdx⟩

theorem castleChecks_mem {gen : Position → Option (List Position)} {board : Board}
    {row : Int} {color : PieceColor} {destCol : Int} :
    ∀ {cols : List Int} {l : List Position},
      castleChecks gen board row color destCol cols = some l →
      ∀ x ∈ l, x = (⟨row, destCol⟩ : Position) ∧
        ∀ c ∈ cols, isSquareAttackedWith gen board ⟨row, c⟩ color = some false := by
  intro cols
  induction cols with
  | nil =>
    intro l h x hx
    simp only [castleChecks, Option.some.injEq] at h
    subst h
    rw [List.mem_singleton] at hx
    exact ⟨hx, by simp⟩
  | cons c cs ih =>
    intro l h x hx
    unfold castleChecks at h
    cases ha : isSquareAttackedWith gen board ⟨row, c⟩ color with
    | none => rw [ha] at h; cases h
    | some a =>
      rw [ha] at h
      simp only [Option.bind_eq_bind, Option.some_bind] at h
      cases a with
      | true =>
        rw [if_pos rfl] at h
        obtain rfl : ([] : List Position) = l := Option.some.inj h
        cases hx
      | false =>
        rw [if_neg (by decide : ¬((false : Bool) = true))] at h
        obtain ⟨hd, hrest⟩ := ih h x hx
        refine ⟨hd, ?_⟩
        intro c' hc'
        rcases List.mem_cons.mp hc' with rfl | hc'
        · exact ha
        · exact hrest c' hc'

theorem castleChecks_complete {gen : Position → Option (List Position)} {board : Board}
    {row : Int} {color : PieceColor} {destCol : Int} :
    ∀ {cols : List Int} {l : List Position},
      castleChecks gen board row color destCol cols = some l →
      (∀ c ∈ cols, isSquareAttackedWith gen board ⟨row, c⟩ color = some false) →
      l = [(⟨row, destCol⟩ : Position)] := by
  intro cols
  induction cols with
  | nil =>
    intro l h _
    simp only [castleChecks, Option.some.injEq] at h
    exact h.symm
  | cons c cs ih =>
    intro l h hall
    unfold castleChecks at h
    rw [hall c (List.mem_cons_self c cs)] at h
    simp only [Option.bind_eq_bind, Option.some_bind] at h
    rw [if_neg (by decide : ¬((false : Bool) = true))] at h
    exact ih h (fun c' hc' => hall c' (List.mem_cons_of_mem c hc'))

theorem castleSide_mem {gen : Position → Option (List Position)} {board : Board}
    {row : Int} {color : PieceColor} {rookCol : Int} {betweenCols checkCols : List Int}
    {destCol : Int} {l : List Position}
    (h : castleSide gen board row color rookCol betweenCols checkCols destCol = some l) :
    ∀ x ∈ l, x = (⟨row, destCol⟩ : Position) ∧
      (∃ rk, getPiece board ⟨row, rookCol⟩ = some rk ∧ rk.type = PieceType.rook ∧
        rk.hasMoved = false) ∧
      (∀ c ∈ betweenCols, getPiece board ⟨row, c⟩ = none) ∧
      (∀ c ∈ checkCols, isSquareAttackedWith gen board ⟨row, c⟩ color = some false) := by
  intro x hx
  unfold castleSide at h
  cases hrk : getPiece board ⟨row, rookCol⟩ with
  | none =>
    simp only [hrk] at h
    obtain rfl : ([] : List Position) = l := Option.some.inj h
    cases hx
  | some rk =>
    simp only [hrk] at h
    split at h
    · rename_i hcond
      split at h
      · rename_i hbet
        obtain ⟨hxd, hchk⟩ := castleChecks_mem h x hx
        refine ⟨hxd, ⟨rk, rfl, hcond.1, hcond.2⟩, ?_, hchk⟩
        intro c hc
        have := List.all_eq_true.mp hbet c hc
        exact Option.isNone_iff_eq_none.mp this
      · obtain rfl : ([] : List Position) = l := Option.some.inj h
        cases hx
    · obtain rfl : ([] : List Position) = l := Option.some.inj h
      cases hx

theorem castleSide_complete {gen : Position → Option (List Position)} {board : Board}
    {row : Int} {color : PieceColor} {rookCol : Int} {betweenCols checkCols : List Int}
    {destCol : Int} {l : List Position}
    (h : castleSide gen board row color rookCol betweenCols checkCols destCol = some l)
    (hrk : ∃ rk, getPiece board ⟨row, rookCol⟩ = some rk ∧ rk.type = PieceType.rook ∧
      rk.hasMoved = false)
    (hbet : ∀ c ∈ betweenCols, getPiece board ⟨row, c⟩ = none)
    (hchk : ∀ c ∈ checkCols, isSquareAttackedWith gen board ⟨row, c⟩ color = some false) :
    l = [(⟨row, destCol⟩ : Position)] := by
  obtain ⟨rk, hrk1, hrk2, hrk3⟩ := hrk
  unfold castleSide at h
  simp only [hrk1] at h
  rw [if_pos ⟨hrk2, hrk3⟩,
    if_pos (List.all_eq_true.mpr fun c hc =>
      Option.isNone_iff_eq_none.mpr (hbet c hc))] at h
  exact castleChecks_complete h hchk

theorem king_raw_inv {fuel : Nat} {board : Board} {pos : Position} {ep : Option Position}
    {piece : Piece} {raw : List Position}
    (hp : getPiece board pos = some piece) (hty : piece.type = PieceType.king)
    (h : getRawMovesF (fuel + 1) board pos ep = some raw) :
    (piece.hasMoved = true ∧
      raw = offsetMoves board piece.color pos.row pos.col kingOffsets) ∨
    (piece.hasMoved = false ∧ ∃ ks qs,
      castleSide (fun sq => getRawMovesF fuel board sq none) board pos.row piece.color
        7 [5, 6] [4, 5, 6] 6 = some ks ∧
      castleSide (fun sq => getRawMovesF fuel board sq none) board pos.row piece.color
        0 [1, 2, 3] [4, 3, 2] 2 = some qs ∧
      raw = offsetMoves board piece.color pos.row pos.col kingOffsets ++ ks ++ qs) := by
  simp only [getRawMovesF, hp, hty] at h
  cases hmv : piece.hasMoved with
  | true =>
    rw [hmv, if_pos rfl] at h
    exact Or.inl ⟨rfl, (Option.some.inj h).symm⟩
  | false =>
    rw [hmv, if_neg (by decide : ¬((false : Bool) = true))] at h
    cases hks : castleSide (fun sq => getRawMovesF fuel board sq none) board pos.row
        piece.color 7 [5, 6] [4, 5, 6] 6 with
    | none => rw [hks] at h; cases h
    | some ks =>
      rw [hks] at h
      cases hqs : castleSide (fun sq => getRawMovesF fuel board sq none) board pos.row
          piece.color 0 [1, 2, 3] [4, 3, 2] 2 with
      | none => rw [hqs] at h; cases h
      | some qs =>
        rw [hqs] at h
        simp only [Option.bind_eq_bind, Option.some_bind, Option.some.injEq] at h
        exact Or.inr ⟨rfl, ks, qs, rfl, rfl, by rw [← h, List.append_assoc]⟩

theorem attackScan_false {gen : Position → Option (List Position)} {board : Board}
    {target : Position} {attackerColor : PieceColor} :
    ∀ {sqs : List Position}, attackScan gen board target attackerColor sqs = some false →
      ∀ sq ∈ sqs, ∀ pc, rawGet board sq.row sq.col = some pc → pc.color = attackerColor →
        ∃ ms, gen sq = some ms ∧
          ms.any (fun m => decide (m.row = target.row ∧ m.col = target.col)) = false := by
  intro sqs
  induction sqs with
  | nil =>
    intro _ sq hsq
    cases hsq
  | cons s0 rest ih =>
    intro h sq hsq pc hpc hcol
    unfold attackScan at h
    rcases List.mem_cons.mp hsq with rfl | hsq2
    · simp only [hpc, if_pos hcol] at h
      cases hg : gen sq with
      | none => rw [hg] at h; cases h
      | some ms =>
        simp only [hg] at h
        by_cases hany : ms.any
            (fun m => decide (m.row = target.row ∧ m.col = target.col)) = true
        · rw [if_pos hany] at h
          cases h
        · refine ⟨ms, rfl, ?_⟩
          cases hb : ms.any (fun m => decide (m.row = target.row ∧ m.col = target.col))
          · rfl
          · exact absurd hb hany
    · cases hpc0 : rawGet board s0.row s0.col with
      | none =>
        simp only [hpc0] at h
        exact ih h sq hsq2 pc hpc hcol
      | some pc0 =>
        simp only [hpc0] at h
        by_cases hcol0 : pc0.color = attackerColor
        · rw [if_pos hcol0] at h
          cases hg : gen s0 with
          | none => simp only [hg] at h; cases h
          | some ms =>
            simp only [hg] at h
            by_cases hany : ms.any
                (fun m => decide (m.row = target.row ∧ m.col = target.col)) = true
            · rw [if_pos hany] at h
              cases h
            · rw [if_neg hany] at h
              exact ih h sq hsq2 pc hpc hcol
        · rw [if_neg hcol0] at h
          exact ih h sq hsq2 pc hpc hcol

theorem mem_allSquares {r c : Int} (hr : 0 ≤ r ∧ r < 8) (hc : 0 ≤ c ∧ c < 8) :
    (⟨r, c⟩ : Position) ∈ allSquares := by
  have h1 : ((r.toNat : Int)) = r := Int.toNat_of_nonneg hr.1
  have h2 : ((c.toNat : Int)) = c := Int.toNat_of_nonneg hc.1
  rw [← h1, ← h2]
  have ha : r.toNat < 8 := by omega
  have hb : c.toNat < 8 := by omega
  generalize r.toNat = a at ha
  generalize c.toNat = b at hb
  interval_cases a <;> interval_cases b <;> decide

theorem getPiece_rawGet {board : Board} {pos : Position} {pc : Piece}
    (h : getPiece board pos = some pc) : rawGet board pos.row pos.col = some pc := by
  unfold getPiece at h
  rwa [if_pos (getPiece_valid h)] at h

/-- If the kingside attack test on the transit square g reports
"unattacked", the unmoved rook-typed piece in the corner cannot belong to
the attacker — it would attack g itself across the empty f/g squares.
Hence the corner rook is the castling side's own. -/
theorem corner_rook_own_ks {fuel : Nat} {board : Board} {r : Int} {color : PieceColor}
    {rk : Piece} (hr : 0 ≤ r ∧ r < 8)
    (hrk : getPiece board ⟨r, 7⟩ = some rk)
    (hrty : rk.type = PieceType.rook)
    (h6 : getPiece board ⟨r, 6⟩ = none)
    (hatt : isSquareAttackedWith (fun sq => getRawMovesF fuel board sq none) board ⟨r, 6⟩
      color = some false) :
    rk.color = color := by
  by_contra hne
  have hcolor : rk.color =
      (if color = PieceColor.white then PieceColor.black else PieceColor.white) := by
    cases color <;> cases hcc : rk.color <;> simp_all
  unfold isSquareAttackedWith at hatt
  obtain ⟨ms, hms, hany⟩ := attackScan_false hatt ⟨r, 7⟩
    (mem_allSquares hr ⟨by omega, by omega⟩) rk (getPiece_rawGet hrk) hcolor
  cases fuel with
  | zero => cases hms
  | succ m =>
    simp only [getRawMovesF, hrk, hrty] at hms
    have hpos : (⟨r + 0, 7 + (-1 : Int)⟩ : Position) = (⟨r, 6⟩ : Position) := by
      have e1 : r + 0 = r := by ring
      have e2 : (7 : Int) + (-1) = 6 := by norm_num
      rw [e1, e2]
    have hv6 : isValidPosition (⟨r, 6⟩ : Position) = true :=
      isValidPosition_iff.mpr ⟨hr.1, hr.2, by norm_num, by norm_num⟩
    have hslide : (⟨r, 6⟩ : Position) ∈
        addSlidingMoves board rk.color 0 (-1) (r + 0) (7 + -1) 8 := by
      rw [show (8 : Nat) = 7 + 1 from rfl]
      unfold addSlidingMoves
      rw [hpos, if_pos hv6, h6]
      exact List.mem_cons_self _ _
    have hEq := Option.some.inj hms
    have hmem : (⟨r, 6⟩ : Position) ∈ ms := by
      rw [← hEq]
      simp only [List.foldr_cons, List.foldr_nil]
      exact List.mem_append.mpr (Or.inr (List.mem_append.mpr (Or.inr
        (List.mem_append.mpr (Or.inl hslide)))))
    rw [List.any_eq_false] at hany
    exact hany ⟨r, 6⟩ hmem (by simp)

/-- Queenside analog: an attacker-colored unmoved rook in the a-file corner
would attack the checked square c (column 2) across the empty b/c squares,
so a passing attack test forces the corner rook to be the castler's own. -/
theorem corner_rook_own_qs {fuel : Nat} {board : Board} {r : Int} {color : PieceColor}
    {rk : Piece} (hr : 0 ≤ r ∧ r < 8)
    (hrk : getPiece board ⟨r, 0⟩ = some rk)
    (hrty : rk.type = PieceType.rook)
    (h1 : getPiece board ⟨r, 1⟩ = none)
    (h2 : getPiece board ⟨r, 2⟩ = none)
    (hatt : isSquareAttackedWith (fun sq => getRawMovesF fuel board sq none) board ⟨r, 2⟩
      color = some false) :
    rk.color = color := by
  by_contra hne
  have hcolor : rk.color =
      (if color = PieceColor.white then PieceColor.black else PieceColor.white) := by
    cases color <;> cases hcc : rk.color <;> simp_all
  unfold isSquareAttackedWith at hatt
  obtain ⟨ms, hms, hany⟩ := attackScan_false hatt ⟨r, 0⟩
    (mem_allSquares hr ⟨by omega, by omega⟩) rk (getPiece_rawGet hrk) hcolor
  cases fuel with
  | zero => cases hms
  | succ m =>
    simp only [getRawMovesF, hrk, hrty] at hms
    have hpos1 : (⟨r + 0, 0 + (1 : Int)⟩ : Position) = (⟨r, 1⟩ : Position) := by
      have e1 : r + 0 = r := by ring
      have e2 : (0 : Int) + 1 = 1 := by norm_num
      rw [e1, e2]
    have hpos2 : (⟨r + 0 + 0, 0 + 1 + (1 : Int)⟩ : Position) = (⟨r, 2⟩ : Position) := by
      have e1 : r + 0 + 0 = r := by ring
      have e2 : (0 : Int) + 1 + 1 = 2 := by norm_num
      rw [e1, e2]
    have hv1 : isValidPosition (⟨r, 1⟩ : Position) = true :=
      isValidPosition_iff.mpr ⟨hr.1, hr.2, by norm_num, by norm_num⟩
    have hv2 : isValidPosition (⟨r, 2⟩ : Position) = true :=
      isValidPosition_iff.mpr ⟨hr.1, hr.2, by norm_num, by norm_num⟩
    have hslide : (⟨r, 2⟩ : Position) ∈
        addSlidingMoves board rk.color 0 1 (r + 0) (0 + 1) 8 := by
      rw [show (8 : Nat) = 7 + 1 from rfl]
      unfold addSlidingMoves
      rw [hpos1, if_pos hv1, h1]
      refine List.mem_cons_of_mem _ ?_
      show (⟨r, 2⟩ : Position) ∈
        addSlidingMoves board rk.color 0 1 (r + 0 + 0) (0 + 1 + 1) (6 + 1)
      unfold addSlidingMoves
      rw [hpos2, if_pos hv2, h2]
      exact List.mem_cons_self _ _
    have hEq := Option.some.inj hms
    have hmem : (⟨r, 2⟩ : Position) ∈ ms := by
      rw [← hEq]
      simp only [List.foldr_cons, List.foldr_nil]
      exact List.mem_append.mpr (Or.inr (List.mem_append.mpr (Or.inr
        (List.mem_append.mpr (Or.inr (List.mem_append.mpr (Or.inl hslide)))))))
    rw [List.any_eq_false] at hany
    exact hany ⟨r, 2⟩ hmem (by simp)

/-- A king on column 4 never reaches columns 6 or 2 by a one-square step. -/
theorem king_adj_col {board : Board} {color : PieceColor} {r c : Int}
    (hc : c = 6 ∨ c = 2)
    (hin : (⟨r, c⟩ : Position) ∈ offsetMoves board color r 4 kingOffsets) : False := by
  obtain ⟨d, hd, hdx⟩ := offsetMoves_mem hin
  have h2 : c = 4 + d.2 := congrArg Position.col hdx
  rcases hc with rfl | rfl <;> fin_cases hd <;> exact absurd h2 (by decide)

/-- `rawSet` inside the board keeps an 8×8 board well-formed. -/
theorem rawSet_boardWF {b : Board} (hb : boardWF b) {r : Int} (hrn : r.toNat < 8)
    (c : Int) (v : Square) : boardWF (rawSet b r c v) := by
  refine ⟨by rw [rawSet_length]; exact hb.1, ?_⟩
  intro row hrow
  rcases List.mem_or_eq_of_mem_set hrow with h | h
  · exact hb.2 row h
  · rw [h, List.length_set]
    exact boardWF_row_length hb hrn

/-- In-range cell read-back after `rawSet`, bounds given by well-formedness. -/
theorem rawGet_rawSet_wf {b : Board} (hb : boardWF b) {r c : Int}
    (hrn : r.toNat < 8) (hcn : c.toNat < 8) (v : Square) :
    rawGet (rawSet b r c v) r c = v :=
  rawGet_rawSet_eq b r c v (by rw [hb.1]; exact hrn)
    (by rw [boardWF_row_length hb hrn]; exact hcn)

/-- The spec's kingside-castling availability conditions for a king of
`king`'s color on its home square `⟨r, 4⟩`: king unmoved, an unmoved rook of
the king's own color in the h-file corner, the squares between them empty,
and the start, transit and destination squares unattacked (the attack tests
being the ones the code runs, with the same raw-move generator). -/
def specKingsideCastle (fuel : Nat) (board : Board) (r : Int) (king : Piece) : Prop :=
  king.hasMoved = false ∧
  (∃ rk, getPiece board ⟨r, 7⟩ = some rk ∧ rk.type = PieceType.rook ∧
    rk.hasMoved = false ∧ rk.color = king.color) ∧
  getPiece board ⟨r, 5⟩ = none ∧ getPiece board ⟨r, 6⟩ = none ∧
  ∀ c ∈ ([4, 5, 6] : List Int),
    isSquareAttackedWith (fun sq => getRawMovesF fuel board sq none) board ⟨r, c⟩
      king.color = some false

/-- The spec's queenside-castling availability conditions, mutatis mutandis:
a-file corner rook, empty b/c/d squares, unattacked e/d/c squares. -/
def specQueensideCastle (fuel : Nat) (board : Board) (r : Int) (king : Piece) : Prop :=
  king.hasMoved = false ∧
  (∃ rk, getPiece board ⟨r, 0⟩ = some rk ∧ rk.type = PieceType.rook ∧
    rk.hasMoved = false ∧ rk.color = king.color) ∧
  getPiece board ⟨r, 1⟩ = none ∧ getPiece board ⟨r, 2⟩ = none ∧
  getPiece board ⟨r, 3⟩ = none ∧
  ∀ c ∈ ([4, 3, 2] : List Int),
    isSquareAttackedWith (fun sq => getRawMovesF fuel board sq none) board ⟨r, c⟩
      king.color = some false

/-- For a king on its home square, the kingside castling destination is
offered exactly under the spec's conditions. -/
theorem ksCastle_iff {fuel : Nat} {board : Board} {r : Int} {ep : Option Position}
    {king : Piece} {raw : List Position} (hr : 0 ≤ r ∧ r < 8)
    (hk : getPiece board ⟨r, 4⟩ = some king) (hty : king.type = PieceType.king)
    (hraw : getRawMovesF (fuel + 1) board ⟨r, 4⟩ ep = some raw) :
    (⟨r, 6⟩ : Position) ∈ raw ↔ specKingsideCastle fuel board r king := by
  constructor
  · intro hin
    rcases king_raw_inv hk hty hraw with ⟨hkmv, hre⟩ | ⟨hkmv, ks, qs, hks, hqs, hre⟩
    · rw [hre] at hin
      exact absurd hin (fun h => king_adj_col (Or.inl rfl) h)
    · rw [hre] at hin
      rcases List.mem_append.mp hin with hin' | hin2
      · rcases List.mem_append.mp hin' with hadj | hks'
        · exact absurd hadj (fun h => king_adj_col (Or.inl rfl) h)
        · obtain ⟨hxd, ⟨rk, hrk, hrkty, hrkmv⟩, hbet, hchk⟩ := castleSide_mem hks _ hks'
          have h5 : getPiece board ⟨r, 5⟩ = none := hbet 5 (by decide)
          have h6 : getPiece board ⟨r, 6⟩ = none := hbet 6 (by decide)
          have hcol : rk.color = king.color :=
            corner_rook_own_ks hr hrk hrkty h6 (hchk 6 (by decide))
          exact ⟨hkmv, ⟨rk, hrk, hrkty, hrkmv, hcol⟩, h5, h6, hchk⟩
      · obtain ⟨hxd, -⟩ := castleSide_mem hqs _ hin2
        exact absurd (congrArg Position.col hxd) ((by decide : ¬((6 : Int) = 2)))
  · rintro ⟨hkmv, ⟨rk, hrk, hrkty, hrkmv, -⟩, h5, h6, hchk⟩
    rcases king_raw_inv hk hty hraw with ⟨hkmv', -⟩ | ⟨-, ks, qs, hks, hqs, hre⟩
    · rw [hkmv] at hkmv'
      cases hkmv'
    · have hksl : ks = [(⟨r, 6⟩ : Position)] := by
        refine castleSide_complete hks ⟨rk, hrk, hrkty, hrkmv⟩ ?_ hchk
        intro c hc
        fin_cases hc
        · exact h5
        · exact h6
      rw [hre, hksl]
      exact List.mem_append.mpr (Or.inl (List.mem_append.mpr (Or.inr
        (List.mem_singleton.mpr rfl))))

/-- For a king on its home square, the queenside castling destination is
offered exactly under the spec's conditions. -/
theorem qsCastle_iff {fuel : Nat} {board : Board} {r : Int} {ep : Option Position}
    {king : Piece} {raw : List Position} (hr : 0 ≤ r ∧ r < 8)
    (hk : getPiece board ⟨r, 4⟩ = some king) (hty : king.type = PieceType.king)
    (hraw : getRawMovesF (fuel + 1) board ⟨r, 4⟩ ep = some raw) :
    (⟨r, 2⟩ : Position) ∈ raw ↔ specQueensideCastle fuel board r king := by
  constructor
  · intro hin
    rcases king_raw_inv hk hty hraw with ⟨hkmv, hre⟩ | ⟨hkmv, ks, qs, hks, hqs, hre⟩
    · rw [hre] at hin
      exact absurd hin (fun h => king_adj_col (Or.inr rfl) h)
    · rw [hre] at hin
      rcases List.mem_append.mp hin with hin' | hqs'
      · rcases List.mem_append.mp hin' with hadj | hks'
        · exact absurd hadj (fun h => king_adj_col (Or.inr rfl) h)
        · obtain ⟨hxd, -⟩ := castleSide_mem hks _ hks'
          exact absurd (congrArg Position.col hxd) ((by decide : ¬((2 : Int) = 6)))
      · obtain ⟨hxd, ⟨rk, hrk, hrkty, hrkmv⟩, hbet, hchk⟩ := castleSide_mem hqs _ hqs'
        have h1 : getPiece board ⟨r, 1⟩ = none := hbet 1 (by decide)
        have h2 : getPiece board ⟨r, 2⟩ = none := hbet 2 (by decide)
        have h3 : getPiece board ⟨r, 3⟩ = none := hbet 3 (by decide)
        have hcol : rk.color = king.color :=
          corner_rook_own_qs hr hrk hrkty h1 h2 (hchk 2 (by decide))
        exact ⟨hkmv, ⟨rk, hrk, hrkty, hrkmv, hcol⟩, h1, h2, h3, hchk⟩
  · rintro ⟨hkmv, ⟨rk, hrk, hrkty, hrkmv, -⟩, h1, h2, h3, hchk⟩
    rcases king_raw_inv hk hty hraw with ⟨hkmv', -⟩ | ⟨-, ks, qs, hks, hqs, hre⟩
    · rw [hkmv] at hkmv'
      cases hkmv'
    · have hqsl : qs = [(⟨r, 2⟩ : Position)] := by
        refine castleSide_complete hqs ⟨rk, hrk, hrkty, hrkmv⟩ ?_ hchk
        intro c hc
        fin_cases hc
        · exact h1
        · exact h2
        · exact h3
      rw [hre, hqsl]
      exact List.mem_append.mpr (Or.inr (List.mem_singleton.mpr rfl))

/-- The board produced by an applied kingside castle: king to column 6,
corner content to column 5 marked moved, columns 4 and 7 cleared. -/
theorem applyBoard_castle_ks {s : GameState} {r : Int} {p : Option PieceType}
    {piece : Piece} (hwf : boardWF s.board) (hr : 0 ≤ r ∧ r < 8)
    (hty : piece.type = PieceType.king) :
    rawGet (applyBoard s ⟨r, 4⟩ ⟨r, 6⟩ p piece) r 6
        = some { piece with hasMoved := true } ∧
    rawGet (applyBoard s ⟨r, 4⟩ ⟨r, 6⟩ p piece) r 5
        = (rawGet s.board r 7).map (fun rp => { rp with hasMoved := true }) ∧
    rawGet (applyBoard s ⟨r, 4⟩ ⟨r, 6⟩ p piece) r 4 = none ∧
    rawGet (applyBoard s ⟨r, 4⟩ ⟨r, 6⟩ p piece) r 7 = none := by
  obtain ⟨t, c, m⟩ := piece
  have ht : t = PieceType.king := hty
  subst ht
  have hb : applyBoard s ⟨r, 4⟩ ⟨r, 6⟩ p ⟨PieceType.king, c, m⟩ =
      rawSet (rawSet (rawSet (rawSet s.board r 5
          ((rawGet s.board r 7).map (fun rp => { rp with hasMoved := true })))
        r 7 none) r 6 (some ⟨PieceType.king, c, true⟩)) r 4 none := by
    show rawSet (rawSet (rawSet (rawSet (cloneBoard s.board) r 5
          ((rawGet (cloneBoard s.board) r 7).map (fun rp => { rp with hasMoved := true })))
        r 7 none) r 6 (some ⟨PieceType.king, c, true⟩)) r 4 none = _
    rw [cloneBoard_eq]
  have hrn : r.toNat < 8 := by omega
  have wf1 : boardWF (rawSet s.board r 5
      ((rawGet s.board r 7).map (fun rp => { rp with hasMoved := true }))) :=
    rawSet_boardWF hwf hrn 5 _
  have wf2 : boardWF (rawSet (rawSet s.board r 5
      ((rawGet s.board r 7).map (fun rp => { rp with hasMoved := true }))) r 7 none) :=
    rawSet_boardWF wf1 hrn 7 none
  have wf3 : boardWF (rawSet (rawSet (rawSet s.board r 5
      ((rawGet s.board r 7).map (fun rp => { rp with hasMoved := true })))
        r 7 none) r 6 (some ⟨PieceType.king, c, true⟩)) :=
    rawSet_boardWF wf2 hrn 6 _
  rw [hb]
  refine ⟨?_, ?_, ?_, ?_⟩
  · rw [rawGet_rawSet_ne _ r 4 r 6 none (Or.inr (by decide))]
    exact rawGet_rawSet_wf wf2 hrn (by decide) _
  · rw [rawGet_rawSet_ne _ r 4 r 5 none (Or.inr (by decide)),
      rawGet_rawSet_ne _ r 6 r 5 _ (Or.inr (by decide)),
      rawGet_rawSet_ne _ r 7 r 5 none (Or.inr (by decide))]
    exact rawGet_rawSet_wf hwf hrn (by decide) _
  · exact rawGet_rawSet_wf wf3 hrn (by decide) none
  · rw [rawGet_rawSet_ne _ r 4 r 7 none (Or.inr (by decide)),
      rawGet_rawSet_ne _ r 6 r 7 _ (Or.inr (by decide))]
    exact rawGet_rawSet_wf wf1 hrn (by decide) none

/-- The board produced by an applied queenside castle: king to column 2,
corner content to column 3 marked moved, columns 4 and 0 cleared. -/
theorem applyBoard_castle_qs {s : GameState} {r : Int} {p : Option PieceType}
    {piece : Piece} (hwf : boardWF s.board) (hr : 0 ≤ r ∧ r < 8)
    (hty : piece.type = PieceType.king) :
    rawGet (applyBoard s ⟨r, 4⟩ ⟨r, 2⟩ p piece) r 2
        = some { piece with hasMoved := true } ∧
    rawGet (applyBoard s ⟨r, 4⟩ ⟨r, 2⟩ p piece) r 3
        = (rawGet s.board r 0).map (fun rp => { rp with hasMoved := true }) ∧
    rawGet (applyBoard s ⟨r, 4⟩ ⟨r, 2⟩ p piece) r 4 = none ∧
    rawGet (applyBoard s ⟨r, 4⟩ ⟨r, 2⟩ p piece) r 0 = none := by
  obtain ⟨t, c, m⟩ := piece
  have ht : t = PieceType.king := hty
  subst ht
  have hb : applyBoard s ⟨r, 4⟩ ⟨r, 2⟩ p ⟨PieceType.king, c, m⟩ =
      rawSet (rawSet (rawSet (rawSet s.board r 3
          ((rawGet s.board r 0).map (fun rp => { rp with hasMoved := true })))
        r 0 none) r 2 (some ⟨PieceType.king, c, true⟩)) r 4 none := by
    show rawSet (rawSet (rawSet (rawSet (cloneBoard s.board) r 3
          ((rawGet (cloneBoard s.board) r 0).map (fun rp => { rp with hasMoved := true })))
        r 0 none) r 2 (some ⟨PieceType.king, c, true⟩)) r 4 none = _
    rw [cloneBoard_eq]
  have hrn : r.toNat < 8 := by omega
  have wf1 : boardWF (rawSet s.board r 3
      ((rawGet s.board r 0).map (fun rp => { rp with hasMoved := true }))) :=
    rawSet_boardWF hwf hrn 3 _
  have wf2 : boardWF (rawSet (rawSet s.board r 3
      ((rawGet s.board r 0).map (fun rp => { rp with hasMoved := true }))) r 0 none) :=
    rawSet_boardWF wf1 hrn 0 none
  have wf3 : boardWF (rawSet (rawSet (rawSet s.board r 3
      ((rawGet s.board r 0).map (fun rp => { rp with hasMoved := true })))
        r 0 none) r 2 (some ⟨PieceType.king, c, true⟩)) :=
    rawSet_boardWF wf2 hrn 2 _
  rw [hb]
  refine ⟨?_, ?_, ?_, ?_⟩
  · rw [rawGet_rawSet_ne _ r 4 r 2 none (Or.inr (by decide))]
    exact rawGet_rawSet_wf wf2 hrn (by decide) _
  · rw [rawGet_rawSet_ne _ r 4 r 3 none (Or.inr (by decide)),
      rawGet_rawSet_ne _ r 2 r 3 _ (Or.inr (by decide)),
      rawGet_rawSet_ne _ r 0 r 3 none (Or.inr (by decide))]
    exact rawGet_rawSet_wf hwf hrn (by decide) _
  · exact rawGet_rawSet_wf wf3 hrn (by decide) none
  · rw [rawGet_rawSet_ne _ r 4 r 0 none (Or.inr (by decide)),
      rawGet_rawSet_ne _ r 2 r 0 _ (Or.inr (by decide))]
    exact rawGet_rawSet_wf wf1 hrn (by decide) none

/-- An accepted kingside-castle `makeMove` relocates king and rook together. -/
theorem castle_relocates_ks {fuel : Nat} {s : GameState} {r : Int}
    {p : Option PieceType} {king rook : Piece} {s' : GameState}
    (hwf : boardWF s.board) (hr : 0 ≤ r ∧ r < 8)
    (hk : getPiece s.board ⟨r, 4⟩ = some king) (hty : king.type = PieceType.king)
    (hrook : rawGet s.board r 7 = some rook)
    (hmm : makeMoveF fuel s ⟨r, 4⟩ ⟨r, 6⟩ p = some (some s')) :
    rawGet s'.board r 6 = some { king with hasMoved := true } ∧
    rawGet s'.board r 5 = some { rook with hasMoved := true } ∧
    rawGet s'.board r 4 = none ∧ rawGet s'.board r 7 = none := by
  obtain ⟨piece, hp, -, legal, -, -, hacc⟩ := makeMoveF_acc_inv hmm
  have hpk : piece = king := Option.some.inj (hp.symm.trans hk)
  subst hpk
  have hbd : s'.board = applyBoard s ⟨r, 4⟩ ⟨r, 6⟩ p piece := by
    rcases makeMoveAccepted_inv hacc with ⟨-, hs⟩ | ⟨-, -, hs⟩ | ⟨-, -, hs⟩ <;>
      rw [hs] <;> rfl
  obtain ⟨g6, g5, g4, g7⟩ := applyBoard_castle_ks (p := p) hwf hr hty
  rw [hbd]
  refine ⟨g6, ?_, g4, g7⟩
  rw [g5, hrook]
  rfl

/-- An accepted queenside-castle `makeMove` relocates king and rook together. -/
theorem castle_relocates_qs {fuel : Nat} {s : GameState} {r : Int}
    {p : Option PieceType} {king rook : Piece} {s' : GameState}
    (hwf : boardWF s.board) (hr : 0 ≤ r ∧ r < 8)
    (hk : getPiece s.board ⟨r, 4⟩ = some king) (hty : king.type = PieceType.king)
    (hrook : rawGet s.board r 0 = some rook)
    (hmm : makeMoveF fuel s ⟨r, 4⟩ ⟨r, 2⟩ p = some (some s')) :
    rawGet s'.board r 2 = some { king with hasMoved := true } ∧
    rawGet s'.board r 3 = some { rook with hasMoved := true } ∧
    rawGet s'.board r 4 = none ∧ rawGet s'.board r 0 = none := by
  obtain ⟨piece, hp, -, legal, -, -, hacc⟩ := makeMoveF_acc_inv hmm
  have hpk : piece = king := Option.some.inj (hp.symm.trans hk)
  subst hpk
  have hbd : s'.board = applyBoard s ⟨r, 4⟩ ⟨r, 2⟩ p piece := by
    rcases makeMoveAccepted_inv hacc with ⟨-, hs⟩ | ⟨-, -, hs⟩ | ⟨-, -, hs⟩ <;>
      rw [hs] <;> rfl
  obtain ⟨g2, g3, g4, g0⟩ := applyBoard_castle_qs (p := p) hwf hr hty
  rw [hbd]
  refine ⟨g2, ?_, g4, g0⟩
  rw [g3, hrook]
  rfl

/-- An unmoved white king on c1 (column 2), a white bishop on e1 (column 4)
— a square strictly between the king and the unmoved h1 rook — and nothing
else.  The code's castling branch still tests only the fixed squares f1/g1,
so it offers the castling destination g1. -/
def c6CexBoard : Board :=
  [emptyRank, emptyRank, emptyRank, emptyRank, emptyRank, emptyRank, emptyRank,
   [none, none, some ⟨PieceType.king, PieceColor.white, false⟩, none,
    some ⟨PieceType.bishop, PieceColor.white, false⟩, none, none,
    some ⟨PieceType.rook, PieceColor.white, false⟩]]

/-- C6 counterexample: on `c6CexBoard` the never-moved white king stands on
column 2, the square on column 4 between it and the unmoved corner rook is
occupied, yet raw move generation for the king still offers the castling
destination on column 6 — the code checks the fixed f/g squares regardless
of the king's actual position, so the claimed equivalence fails for a board
whose king is off its home square. -/
theorem c6_castling_counterexample :
    getPiece c6CexBoard ⟨7, 2⟩ =
      some { type := PieceType.king, color := PieceColor.white, hasMoved := false } ∧
    getPiece c6CexBoard ⟨7, 4⟩ =
      some { type := PieceType.bishop, color := PieceColor.white, hasMoved := false } ∧
    (⟨7, 6⟩ : Position) ∈ (getRawMovesF 1 c6CexBoard ⟨7, 2⟩ none).getD [] := by
  decide

/-- C6: for a king on its home square (column 4) the castling destinations
(column 6 kingside, column 2 queenside) are offered exactly under the spec's
conditions — king never moved, an unmoved own-color rook on the relevant
corner, the squares between them empty, and the start, transit and
destination squares unattacked — and an accepted castling move relocates
king and rook together in the single transition.  (The original claim reads
"for every board"; it fails when the never-moved king is off column 4, see
the counterexample: the code tests the fixed f/g squares regardless of the
king's position.) -/
theorem c6_castling_conditions :
    (∀ fuel board r ep king raw, (0 ≤ r ∧ r < 8) →
        getPiece board ⟨r, 4⟩ = some king → king.type = PieceType.king →
        getRawMovesF (fuel + 1) board ⟨r, 4⟩ ep = some raw →
        ((⟨r, 6⟩ : Position) ∈ raw ↔ specKingsideCastle fuel board r king) ∧
        ((⟨r, 2⟩ : Position) ∈ raw ↔ specQueensideCastle fuel board r king)) ∧
    (∀ fuel s r p king rook s', boardWF s.board → (0 ≤ r ∧ r < 8) →
        getPiece s.board ⟨r, 4⟩ = some king → king.type = PieceType.king →
        rawGet s.board r 7 = some rook →
        makeMoveF fuel s ⟨r, 4⟩ ⟨r, 6⟩ p = some (some s') →
        rawGet s'.board r 6 = some { king with hasMoved := true } ∧
        rawGet s'.board r 5 = some { rook with hasMoved := true } ∧
        rawGet s'.board r 4 = none ∧ rawGet s'.board r 7 = none) ∧
    (∀ fuel s r p king rook s', boardWF s.board → (0 ≤ r ∧ r < 8) →
        getPiece s.board ⟨r, 4⟩ = some king → king.type = PieceType.king →
        rawGet s.board r 0 = some rook →
        makeMoveF fuel s ⟨r, 4⟩ ⟨r, 2⟩ p = some (some s') →
        rawGet s'.board r 2 = some { king with hasMoved := true } ∧
        rawGet s'.board r 3 = some { rook with hasMoved := true } ∧
        rawGet s'.board r 4 = none ∧ rawGet s'.board r 0 = none) :=
  ⟨fun _ _ _ _ _ _ hr hk hty hraw =>
    ⟨ksCastle_iff hr hk hty hraw, qsCastle_iff hr hk hty hraw⟩,
   fun _ _ _ _ _ _ _ hwf hr hk hty hrook hmm =>
    castle_relocates_ks hwf hr hk hty hrook hmm,
   fun _ _ _ _ _ _ _ hwf hr hk hty hrook hmm =>
    castle_relocates_qs hwf hr hk hty hrook hmm⟩

/-! ## C9 -/

theorem digitChar_isDigit {d : Nat} (h : d < 10) : (digitChar d).isDigit = true := by
  interval_cases d <;> decide

theorem digitChar_ne_plus {d : Nat} (h : d < 10) : digitChar d ≠ '+' := by
  interval_cases d <;> decide

theorem digitChar_toNat {d : Nat} (h : d < 10) : (digitChar d).toNat - 48 = d := by
  interval_cases d <;> decide

theorem digitsVal_append (a : List Char) (c : Char) :
    digitsVal (a ++ [c]) = 10 * digitsVal a + (c.toNat - 48) := by
  unfold digitsVal
  rw [List.foldl_append]
  rfl

/-- `natChars` writes a nonempty, `'+'`-free string of decimal digits that
`digitsVal` reads back. -/
theorem natChars_spec (n : Nat) :
    natChars n ≠ [] ∧ (∀ c ∈ natChars n, c.isDigit = true) ∧ '+' ∉ natChars n ∧
      digitsVal (natChars n) = n := by
  induction n using Nat.strong_induction_on with
  | _ n ih =>
    by_cases h : n < 10
    · rw [natChars, dif_pos h]
      refine ⟨by simp, ?_, ?_, ?_⟩
      · intro c hc
        rw [List.mem_singleton] at hc
        subst hc
        exact digitChar_isDigit h
      · intro hc
        rw [List.mem_singleton] at hc
        exact digitChar_ne_plus h hc.symm
      · simp [digitsVal, digitChar_toNat h]
    · rw [natChars, dif_neg h]
      have hn : n / 10 < n := Nat.div_lt_self (by omega) (by omega)
      obtain ⟨h1, h2, h3, h4⟩ := ih (n / 10) hn
      have hd : n % 10 < 10 := Nat.mod_lt _ (by omega)
      refine ⟨by simp, ?_, ?_, ?_⟩
      · intro c hc
        rcases List.mem_append.mp hc with hc | hc
        · exact h2 c hc
        · rw [List.mem_singleton] at hc
          subst hc
          exact digitChar_isDigit hd
      · intro hc
        rcases List.mem_append.mp hc with hc | hc
        · exact h3 hc
        · rw [List.mem_singleton] at hc
          exact digitChar_ne_plus hd hc.symm
      · rw [digitsVal_append, h4, digitChar_toNat hd]
        omega

theorem splitOnChar_append (sep : Char) (a b : List Char) (ha : sep ∉ a) :
    splitOnChar sep (a ++ sep :: b) = a :: splitOnChar sep b := by
  induction a with
  | nil => simp [splitOnChar]
  | cons x xs ih =>
    have hx : ¬(x = sep) := fun hxx => ha (hxx ▸ List.mem_cons_self x xs)
    have ha' : sep ∉ xs := fun hs => ha (List.mem_cons_of_mem _ hs)
    rw [List.cons_append, splitOnChar, if_neg hx, ih ha']

theorem jsNumberNat_natChars (m : Nat) : jsNumberNat (natChars m) = some m := by
  obtain ⟨h1, h2, h3, h4⟩ := natChars_spec m
  unfold jsNumberNat
  rw [if_neg h1, if_pos (List.all_eq_true.mpr h2), h4]

def pawnCount (b : Board) : Nat :=
  (b.map (fun row => (row.filter (fun sq =>
    match sq with
    | some p => decide (p.type = PieceType.pawn)
    | none => false)).length)).sum

def tc10State : GameState := (createInitialGameState ['1', '0', '+', '0']).getD dummyState

/-- C9 (amended): `createInitialState("10+0")` yields 16 pawns, the standard
back-rank order for both colors, white to move, `waiting`, clocks 600; every
`"<minutes>+<incrementSeconds>"` input with decimal-digit segments and
minutes value ≥ 1 sets both clocks to `minutes*60`; a modeled input whose
minutes segment parses to `0` (falsy in JS, e.g. `"0+5"`) falls back to the
10-minute default, 600 seconds.  Inputs whose minutes segment is not a
decimal-digit string are outside the modeled fragment of `Number` (the
parse is `none`) and nothing is asserted about them. -/
theorem c9_initial_state :
    (createInitialGameState ['1', '0', '+', '0'] = some tc10State ∧
     pawnCount tc10State.board = 16 ∧
     tc10State.board.getD 0 [] =
       [some { type := PieceType.rook, color := PieceColor.black },
        some { type := PieceType.knight, color := PieceColor.black },
        some { type := PieceType.bishop, color := PieceColor.black },
        some { type := PieceType.queen, color := PieceColor.black },
        some { type := PieceType.king, color := PieceColor.black },
        some { type := PieceType.bishop, color := PieceColor.black },
        some { type := PieceType.knight, color := PieceColor.black },
        some { type := PieceType.rook, color := PieceColor.black }] ∧
     tc10State.board.getD 7 [] =
       [some { type := PieceType.rook, color := PieceColor.white },
        some { type := PieceType.knight, color := PieceColor.white },
        some { type := PieceType.bishop, color := PieceColor.white },
        some { type := PieceType.queen, color := PieceColor.white },
        some { type := PieceType.king, color := PieceColor.white },
        some { type := PieceType.bishop, color := PieceColor.white },
        some { type := PieceType.knight, color := PieceColor.white },
        some { type := PieceType.rook, color := PieceColor.white }] ∧
     tc10State.turn = PieceColor.white ∧ tc10State.status = Status.waiting ∧
     tc10State.whiteTime = 600 ∧ tc10State.blackTime = 600) ∧
    (∀ m i : Nat, 1 ≤ m →
      (createInitialGameState (natChars m ++ '+' :: natChars i)).map
        (fun s => (s.whiteTime, s.blackTime)) = some (m * 60, m * 60)) ∧
    (∀ cs : List Char, ∀ s : GameState, createInitialGameState cs = some s →
      jsNumberNat ((splitOnChar '+' cs).headD []) = some 0 →
      s.whiteTime = 600 ∧ s.blackTime = 600) := by
  refine ⟨by decide, ?_, ?_⟩
  · intro m i hm
    have hsplit := splitOnChar_append '+' (natChars m) (natChars i) (natChars_spec m).2.2.1
    have hne : ¬(m = 0) := by omega
    simp [createInitialGameState, hsplit, jsNumberNat_natChars, hne]
  · intro cs s hs h0
    simp only [createInitialGameState] at hs
    rw [h0] at hs
    simp only [Option.some.injEq] at hs
    rw [← hs]
    exact ⟨rfl, rfl⟩

/-- C9 counterexample: `"0+5"` is a well-formed `<minutes>+<increment>`
input of decimal digits, yet the clocks are 600 (the JS `0 || 10`
fallback), not `0 * 60 = 0`. -/
theorem c9_initial_state_counterexample :
    (['0', '+', '5'] : List Char) = natChars 0 ++ '+' :: natChars 5 ∧
    (createInitialGameState ['0', '+', '5']).map
      (fun s => (s.whiteTime, s.blackTime)) = some (600, 600) ∧
    (600 : Nat) ≠ 0 * 60 := by
  refine ⟨?_, by decide, by decide⟩
  simp [natChars, digitChar]

theorem c9_initial_state_witness :
    (createInitialGameState ['3', '+', '2']).map
      (fun s => (s.whiteTime, s.blackTime)) = some (180, 180) ∧
    (∃ s, createInitialGameState ['0', '0', '+', '1'] = some s ∧
      s.whiteTime = 600 ∧ s.blackTime = 600) := by
  have hB := c9_initial_state.2.1 3 2 (by omega)
  have h3 : natChars 3 ++ '+' :: natChars 2 = ['3', '+', '2'] := by
    simp [natChars, digitChar]
  rw [h3] at hB
  refine ⟨hB, ?_⟩
  have hs : createInitialGameState ['0', '0', '+', '1'] =
      some ((createInitialGameState ['0', '0', '+', '1']).getD dummyState) := by
    decide
  exact ⟨_, hs, c9_initial_state.2.2 _ _ hs (by decide)⟩

end Chess
